import Mathlib

/-!
Ants dashboard statistics engine — verification development.

Shallow embedding of the statistics aggregation engine of `src/App.jsx`
(a React baseball box-score dashboard) and proofs about it.

Modelling conventions:
* JavaScript numbers are modelled as `ℚ`.  All arithmetic in the source is
  addition, multiplication, division and decimal rounding of values derived
  from (small) decimal inputs, so exact rational arithmetic is the intended
  semantics; binary floating point artefacts are outside the model.
* JavaScript `Date` values are modelled as the number of calendar days since
  the epoch 1970-01-01 (an `Int`).  The host is taken to run in the UTC zone,
  so `new Date(0)` has civil components 1970-01-01 and `setDate(getDate()+1)`
  is exactly `+1` on the day count.
* Strings are Lean `String`s; all string operations are re-implemented over
  `List Char` so that they evaluate inside the kernel (`String.splitOn`,
  `String.ltb`, … do not).  JavaScript string comparison is by code unit,
  which for the ASCII period keys used here coincides with the
  codepoint-lexicographic order implemented below.
* Raw rows are structures whose numeric fields hold the already-coerced
  numeric value of the CSV cell; the source's `(row[f] || 0)` guard against
  missing fields is modelled by taking absent cells to be `0`.
* `Array.prototype.sort` with a numeric comparator is (since ES2019) a stable
  sort; a stable sort for a total preorder is a unique function, so it is
  modelled by `List.insertionSort` with the relation "comparator ≤ 0".
-/

namespace Ants

/-- JS `safeDiv` (App.jsx line 44): `(a, b) => b === 0 ? 0 : a / b`. -/
def safeDiv (a b : ℚ) : ℚ := if b = 0 then 0 else a / b

/-- JS `Number(x.toFixed(k))`: round to `k` decimal digits, half away from
zero (ECMA-262 `toFixed` on a negative number is sign-prepended `toFixed` of
its absolute value), then read the decimal string back as a number. -/
def jsToFixed (k : ℕ) (q : ℚ) : ℚ :=
  if q < 0 then -(((⌊-q * 10 ^ k + 1 / 2⌋ : ℤ) : ℚ) / 10 ^ k)
  else ((⌊q * 10 ^ k + 1 / 2⌋ : ℤ) : ℚ) / 10 ^ k

/-! ## JS string primitives, re-implemented over `List Char` -/

/-- Code-unit comparison of strings, `a ≤ b`, as used by JS `sort()` on
strings and by `localeCompare` restricted to the ASCII keys produced by the
dashboard (`"2025-04"`, `"2025-Q1"`, …). -/
def charsLe : List Char → List Char → Bool
  | [], _ => true
  | _ :: _, [] => false
  | a :: as, b :: bs =>
    if a.toNat < b.toNat then true
    else if b.toNat < a.toNat then false
    else charsLe as bs

/-- String `≤` on code points (on the ASCII keys of this program this is the
JS code-unit order). -/
def strLe (a b : String) : Bool := charsLe a.toList b.toList

/-- Does `pat` occur at the head of `text`? -/
def leadsWith : List Char → List Char → Bool
  | [], _ => true
  | _ :: _, [] => false
  | p :: ps, t :: ts => p == t && leadsWith ps ts

/-- Does `pat` occur anywhere in `text`? -/
def containsSeq (pat : List Char) : List Char → Bool
  | [] => leadsWith pat []
  | c :: ts => leadsWith pat (c :: ts) || containsSeq pat ts

/-- JS `s.includes(pat)` (substring containment; `pat = ""` is `true`,
matching JS). -/
def jsIncludes (s pat : String) : Bool := containsSeq pat.toList s.toList

/-- JS `s.toLowerCase()` restricted to the per-character lowering relevant to
the ASCII/`katakana` team names in the data. -/
def jsToLower (s : String) : String := String.mk (s.toList.map Char.toLower)

/-- Value of a leading run of decimal digits, `none` if there is none
(the "NaN" outcome of JS `parseInt`). -/
def digitsVal (l : List Char) : Option ℕ :=
  let ds := l.takeWhile (·.isDigit)
  if ds.isEmpty then none
  else some (ds.foldl (fun n c => n * 10 + (c.toNat - 48)) 0)

/-- JS `parseInt(s, 10)`: skip leading whitespace, optional sign, then a
leading digit run; `none` models `NaN`. -/
def parseIntJS (l : List Char) : Option Int :=
  match l.dropWhile (·.isWhitespace) with
  | '-' :: rest => (digitsVal rest).map (fun n => -(n : Int))
  | '+' :: rest => (digitsVal rest).map (fun n => (n : Int))
  | rest => (digitsVal rest).map (fun n => (n : Int))

/-! ## JS local dates as days since 1970-01-01 (UTC host) -/

/-- Days since 1970-01-01 of the civil date `y-m-d` (`m ∈ 1..12`; `d` may
carry over, linearly, exactly as JS `Date` normalises day overflow).
Standard civil-calendar conversion (Howard Hinnant's algorithm). -/
def daysFromCivil (y m d : Int) : Int :=
  let yy := y - (if m ≤ 2 then 1 else 0)
  let era := Int.fdiv yy 400
  let yoe := yy - era * 400
  let mp := Int.emod (m + 9) 12
  let doy := Int.fdiv (153 * mp + 2) 5 + d - 1
  let doe := yoe * 365 + Int.fdiv yoe 4 - Int.fdiv yoe 100 + doy
  era * 146097 + doe - 719468

/-- Civil date `(year, month 1..12, day)` of a count of days since
1970-01-01 (inverse of `daysFromCivil`). -/
def civilFromDays (days : Int) : Int × Int × Int :=
  let z := days + 719468
  let era := Int.fdiv z 146097
  let doe := z - era * 146097
  let yoe := Int.fdiv (doe - Int.fdiv doe 1460 + Int.fdiv doe 36524 - Int.fdiv doe 146096) 365
  let y := yoe + era * 400
  let doy := doe - (365 * yoe + Int.fdiv yoe 4 - Int.fdiv yoe 100)
  let mp := Int.fdiv (5 * doy + 2) 153
  let d := doy - Int.fdiv (153 * mp + 2) 5 + 1
  let m := mp + (if mp < 10 then 3 else -9)
  (y + (if m ≤ 2 then 1 else 0), m, d)

/-- JS `new Date(y, mIdx, d)` (month index `0`-based, normalised the JS way)
as days since the epoch. -/
def mkJSDate (y mIdx d : Int) : Int :=
  daysFromCivil (y + Int.fdiv mIdx 12) (Int.emod mIdx 12 + 1) d

/-- JS `date.getFullYear()`. -/
def getFullYear (t : Int) : Int := (civilFromDays t).1

/-- JS `date.getMonth()` (0-based month index). -/
def getMonth (t : Int) : Int := (civilFromDays t).2.1 - 1

/-- The date-string branch of `parseDate` (App.jsx lines 48-60): split on
`-`/`/`, require exactly three `parseInt`-able parts, and build a local
`Date`.  Returns `none` when that branch does not produce a date.  The
source then falls back to the host's generic `new Date(string)` parser;
generic parsing of non-`Y-M-D` formats is a host-library behaviour outside
this embedding and is modelled as failing (all date strings this repository
produces are of the three-part form, and strings such as `"garbage"` are
invalid for the host parser as well), after which the source returns the
sentinel `new Date(0)`. -/
def parseDateParts (s : String) : Option Int :=
  match (s.toList.splitOnP (fun c => c == '-' || c == '/')).map parseIntJS with
  | [some y, some m, some d] => some (mkJSDate y (m - 1) d)
  | _ => none

/-- JS `parseDate` (App.jsx lines 46-68).  Total: an empty or unparseable
date string yields the sentinel epoch date (`new Date(0)` = day `0`), never
an invalid date. -/
def parseDate (s : String) : Int :=
  if s = "" then 0
  else
    match parseDateParts s with
    | some d => d
    | none => 0

/-- Zero-padding of the month number as in `String(m).padStart(2, '0')`. -/
def pad2 (n : Int) : String :=
  let s := toString n
  if s.length < 2 then "0" ++ s else s

/-- Monthly period key `` `${d.getFullYear()}-${(d.getMonth()+1)…padStart(2,'0')}` ``. -/
def monthKey (t : Int) : String :=
  toString (getFullYear t) ++ "-" ++ pad2 (getMonth t + 1)

/-- Quarterly period key `` `${year}-Q${Math.floor(month/3)+1}` ``
(`month` 0-based). -/
def quarterKey (t : Int) : String :=
  toString (getFullYear t) ++ "-Q" ++ toString (Int.fdiv (getMonth t) 3 + 1)

/-! ## Raw rows

Field names translate the CSV column names used by the source:
`選手ID` playerId, `名前` name, `背番号` number, `日付` date, `試合ID` gameId,
`タイトル` title, `スコア` scoreText, `先攻` awayTeam, `後攻` homeTeam; batting
stats `打席数` pa, `打数` ab, `安打` h, `二塁打` doubles, `三塁打` triples,
`本塁打` hr, `打点` rbi, `得点` runs, `三振` so, `四球` bb, `死球` hbp,
`盗塁` sb, `犠飛` sf, `犠打` sac; pitching stats `アウト数` outs, `安打` h,
`失点` r, `自責点` er, `四球` bb, `死球` hbp, `三振` so, `勝数` win,
`負数` loss, `セーブ` sv, `S数` strikes, `球数` pitches. -/
structure BatRow where
  playerId : String
  name : String
  number : String
  date : String
  gameId : String
  title : String
  scoreText : String
  awayTeam : String
  homeTeam : String
  pa : ℚ
  ab : ℚ
  h : ℚ
  doubles : ℚ
  triples : ℚ
  hr : ℚ
  rbi : ℚ
  runs : ℚ
  so : ℚ
  bb : ℚ
  hbp : ℚ
  sb : ℚ
  sf : ℚ
  sac : ℚ
  deriving DecidableEq

/-- Raw pitching row; field-name mapping as for `BatRow`. -/
structure PitchRow where
  playerId : String
  name : String
  number : String
  date : String
  gameId : String
  title : String
  scoreText : String
  awayTeam : String
  homeTeam : String
  outs : ℚ
  h : ℚ
  r : ℚ
  er : ℚ
  bb : ℚ
  hbp : ℚ
  so : ℚ
  win : ℚ
  loss : ℚ
  sv : ℚ
  strikes : ℚ
  pitches : ℚ
  deriving DecidableEq

/-- Player identity: `row['選手ID'] || row['名前']` (empty id falls back to
the name). -/
def batPid (r : BatRow) : String := if r.playerId = "" then r.name else r.playerId

/-- Player identity for a pitching row. -/
def pitchPid (r : PitchRow) : String := if r.playerId = "" then r.name else r.playerId

/-! ## Filter engine (App.jsx lines 296-331) -/

/-- The active filters; an empty `startDate`/`endDate`/`teamKeyword` means
the criterion is off, `category = "all"` means no category filtering. -/
structure Filters where
  startDate : String
  endDate : String
  teamKeyword : String
  category : String
  deriving DecidableEq

/-- The date checks of `filterData`: `start && rowDate < start → drop`,
`end && rowDate >= end+1day → drop` (the source advances the parsed end date
by one day with `setDate(getDate() + 1)`). -/
def datePass (f : Filters) (date : String) : Bool :=
  if f.startDate ≠ "" ∧ parseDate date < parseDate f.startDate then false
  else if f.endDate ≠ "" ∧ parseDate f.endDate + 1 ≤ parseDate date then false
  else true

/-- The team-keyword check of `filterData`.  The source first tries the
keyword as a case-insensitive `RegExp` over the two team fields and falls
back to case-insensitive substring containment when `RegExp` construction
throws; regular-expression semantics are outside this embedding, so the
match is modelled by the substring fallback, which coincides with the regex
path for literal keywords without metacharacters (the kind the UI's plain
text box is for). -/
def keywordPass (f : Filters) (away home : String) : Bool :=
  if f.teamKeyword = "" then true
  else
    jsIncludes (jsToLower away) (jsToLower f.teamKeyword) ||
      jsIncludes (jsToLower home) (jsToLower f.teamKeyword)

/-- The category check of `filterData`: exact title equality unless the
category filter is `"all"`. -/
def categoryPass (f : Filters) (title : String) : Bool :=
  if f.category ≠ "all" ∧ title ≠ f.category then false else true

/-- One row's passage through `filterData`'s conjoined predicates (the
source's sequence of early `return false`s). -/
def rowPass (f : Filters) (date away home title : String) : Bool :=
  datePass f date && keywordPass f away home && categoryPass f title

/-- `filterData` on batting rows. -/
def filterBatting (f : Filters) (rows : List BatRow) : List BatRow :=
  rows.filter fun r => rowPass f r.date r.awayTeam r.homeTeam r.title

/-- `filterData` on pitching rows. -/
def filterPitching (f : Filters) (rows : List PitchRow) : List PitchRow :=
  rows.filter fun r => rowPass f r.date r.awayTeam r.homeTeam r.title

/-! ## Aggregation engine: player batting summaries (App.jsx lines 338-387) -/

/-- Accumulated counting stats for one player (the `stats[id]` object). -/
structure BatAcc where
  id : String
  name : String
  number : String
  games : ℚ
  pa : ℚ
  ab : ℚ
  h : ℚ
  doubles : ℚ
  triples : ℚ
  hr : ℚ
  rbi : ℚ
  runs : ℚ
  so : ℚ
  bb : ℚ
  hbp : ℚ
  sb : ℚ
  sf : ℚ
  sac : ℚ
  deriving DecidableEq

/-- Fresh accumulator for a first-seen player (stats all `0`; the stored
`id` is the raw `選手ID` cell, which may be empty — the key is `batPid`). -/
def initBatAcc (r : BatRow) : BatAcc :=
  { id := r.playerId, name := r.name, number := r.number
    games := 0, pa := 0, ab := 0, h := 0, doubles := 0, triples := 0, hr := 0
    rbi := 0, runs := 0, so := 0, bb := 0, hbp := 0, sb := 0, sf := 0, sac := 0 }

/-- Add one row into a player's accumulator. -/
def addBatRow (s : BatAcc) (r : BatRow) : BatAcc :=
  { s with
    games := s.games + 1, pa := s.pa + r.pa, ab := s.ab + r.ab, h := s.h + r.h
    doubles := s.doubles + r.doubles, triples := s.triples + r.triples
    hr := s.hr + r.hr, rbi := s.rbi + r.rbi, runs := s.runs + r.runs
    so := s.so + r.so, bb := s.bb + r.bb, hbp := s.hbp + r.hbp
    sb := s.sb + r.sb, sf := s.sf + r.sf, sac := s.sac + r.sac }

/-- Group the filtered batting rows by player identity, in first-seen key
order (`Object.values` of the `stats` object). -/
def aggBatRows (rows : List BatRow) : List (String × BatAcc) :=
  rows.foldl
    (fun acc r =>
      if acc.any (fun p => p.1 = batPid r) then
        acc.map fun p => if p.1 = batPid r then (p.1, addBatRow p.2 r) else p
      else acc ++ [(batPid r, addBatRow (initBatAcc r) r)])
    []

/-- A finished player batting summary: accumulated counting stats plus the
derived rate stats. -/
structure BatSummary where
  id : String
  name : String
  number : String
  games : ℚ
  pa : ℚ
  ab : ℚ
  h : ℚ
  doubles : ℚ
  triples : ℚ
  hr : ℚ
  rbi : ℚ
  runs : ℚ
  so : ℚ
  bb : ℚ
  hbp : ℚ
  sb : ℚ
  sf : ℚ
  sac : ℚ
  avg : ℚ
  obp : ℚ
  slg : ℚ
  ops : ℚ
  bbK : ℚ
  isoD : ℚ
  deriving DecidableEq

/-- Derived batting rates (App.jsx lines 367-385): the rates are computed
from the raw accumulated stats and only then rounded; in particular `ops`
rounds the sum of the unrounded `obp` and `slg`. -/
def finalizeBat (s : BatAcc) : BatSummary :=
  let avg := safeDiv s.h s.ab
  let obp := safeDiv (s.h + s.bb + s.hbp) (s.ab + s.bb + s.hbp + s.sf)
  let singles := s.h - s.doubles - s.triples - s.hr
  let totalBases := singles + s.doubles * 2 + s.triples * 3 + s.hr * 4
  let slg := safeDiv totalBases s.ab
  let ops := obp + slg
  let bbK := safeDiv (s.bb + s.hbp) s.so
  let isoD := obp - avg
  { id := s.id, name := s.name, number := s.number
    games := s.games, pa := s.pa, ab := s.ab, h := s.h, doubles := s.doubles
    triples := s.triples, hr := s.hr, rbi := s.rbi, runs := s.runs, so := s.so
    bb := s.bb, hbp := s.hbp, sb := s.sb, sf := s.sf, sac := s.sac
    avg := jsToFixed 3 avg, obp := jsToFixed 3 obp, slg := jsToFixed 3 slg
    ops := jsToFixed 3 ops, bbK := jsToFixed 2 bbK, isoD := jsToFixed 3 isoD }

/-- `aggregatedBatting`: group, derive rates, sort descending by `avg`
(`(a, b) => b.avg - a.avg`, a stable sort). -/
def aggregatedBatting (rows : List BatRow) : List BatSummary :=
  ((aggBatRows rows).map fun p => finalizeBat p.2).insertionSort
    fun a b => b.avg ≤ a.avg

/-! ## Aggregation engine: player pitching summaries (App.jsx lines 389-428) -/

/-- Accumulated pitching counting stats for one player. -/
structure PitchAcc where
  id : String
  name : String
  number : String
  games : ℚ
  outs : ℚ
  h : ℚ
  r : ℚ
  er : ℚ
  bb : ℚ
  hbp : ℚ
  so : ℚ
  win : ℚ
  loss : ℚ
  sv : ℚ
  deriving DecidableEq

/-- Fresh pitching accumulator. -/
def initPitchAcc (r : PitchRow) : PitchAcc :=
  { id := r.playerId, name := r.name, number := r.number
    games := 0, outs := 0, h := 0, r := 0, er := 0, bb := 0, hbp := 0
    so := 0, win := 0, loss := 0, sv := 0 }

/-- Add one pitching row into a player's accumulator. -/
def addPitchRow (s : PitchAcc) (r : PitchRow) : PitchAcc :=
  { s with
    games := s.games + 1, outs := s.outs + r.outs, h := s.h + r.h
    r := s.r + r.r, er := s.er + r.er, bb := s.bb + r.bb
    hbp := s.hbp + r.hbp, so := s.so + r.so, win := s.win + r.win
    loss := s.loss + r.loss, sv := s.sv + r.sv }

/-- Group the filtered pitching rows by player identity. -/
def aggPitchRows (rows : List PitchRow) : List (String × PitchAcc) :=
  rows.foldl
    (fun acc r =>
      if acc.any (fun p => p.1 = pitchPid r) then
        acc.map fun p => if p.1 = pitchPid r then (p.1, addPitchRow p.2 r) else p
      else acc ++ [(pitchPid r, addPitchRow (initPitchAcc r) r)])
    []

/-- A finished player pitching summary. -/
structure PitchSummary where
  id : String
  name : String
  number : String
  games : ℚ
  outs : ℚ
  h : ℚ
  r : ℚ
  er : ℚ
  bb : ℚ
  hbp : ℚ
  so : ℚ
  win : ℚ
  loss : ℚ
  sv : ℚ
  displayInnings : String
  era : ℚ
  whip : ℚ
  kbb : ℚ
  inningsVal : ℚ
  deriving DecidableEq

/-- Decimal rendering of a number known to be a small nonnegative integer
(the `outs % 3` suffix digit of the innings display). -/
def ratStr (q : ℚ) : String := toString q.num

/-- Derived pitching rates (App.jsx lines 413-426), on the source's 7-inning
scale: `era = (er*7)/(outs/3)`, `whip = (bb+hbp+h)/(outs/3)`,
`kbb = so/bb`; `displayInnings` is `floor(outs/3)` with an `.1`/`.2` suffix
for the leftover outs; `inningsVal = outs/3` stays unrounded. -/
def finalizePitch (s : PitchAcc) : PitchSummary :=
  let leftover := s.outs - 3 * ((⌊s.outs / 3⌋ : ℤ) : ℚ)
  let displayInnings :=
    toString (⌊s.outs / 3⌋ : ℤ) ++ (if leftover > 0 then "." ++ ratStr leftover else "")
  let era := safeDiv (s.er * 7) (s.outs / 3)
  let whip := safeDiv (s.bb + s.hbp + s.h) (s.outs / 3)
  let kbb := safeDiv s.so s.bb
  { id := s.id, name := s.name, number := s.number
    games := s.games, outs := s.outs, h := s.h, r := s.r, er := s.er
    bb := s.bb, hbp := s.hbp, so := s.so, win := s.win, loss := s.loss
    sv := s.sv
    displayInnings := displayInnings
    era := jsToFixed 2 era, whip := jsToFixed 2 whip, kbb := jsToFixed 2 kbb
    inningsVal := s.outs / 3 }

/-- `aggregatedPitching`: group, derive rates, sort ascending by `era`
(`(a, b) => a.era - b.era`, a stable sort). -/
def aggregatedPitching (rows : List PitchRow) : List PitchSummary :=
  ((aggPitchRows rows).map fun p => finalizePitch p.2).insertionSort
    fun a b => a.era ≤ b.era

/-! ## Trend / period bucketing (App.jsx lines 494-821) -/

/-- Trend granularity. -/
inductive TrendPeriod
  | game
  | monthly
  | quarterly
  deriving DecidableEq

/-- Opponent resolution: if the home-team (`後攻`) field contains either
home-team alias, the opponent is the away team, else the home team. -/
def opponentOf (home away : String) : String :=
  if jsIncludes home "ありんこ" || jsIncludes home "アントス" then away else home

/-- `teamTrendData`'s `getKey` (App.jsx lines 495-515).  The source guards
on `isNaN(d.getTime())` and would return `null`, but `parseDate` never
returns an invalid date (it falls back to the epoch sentinel), so the guard
is unreachable and a key is always produced; unparseable dates land in the
epoch-derived period. -/
def teamGetKey (date home away : String) : TrendPeriod → String
  | .game =>
      let o := opponentOf home away
      date ++ " vs " ++ (if o = "" then "不明" else o)
  | .quarterly => quarterKey (parseDate date)
  | .monthly => monthKey (parseDate date)

/-- One team batting period bucket (accumulation phase). -/
structure TeamBatPeriod where
  periodKey : String
  ab : ℚ
  h : ℚ
  bb : ℚ
  hbp : ℚ
  sf : ℚ
  runs : ℚ
  doubles : ℚ
  triples : ℚ
  hr : ℚ
  so : ℚ
  sb : ℚ
  deriving DecidableEq

/-- Fresh team batting period bucket. -/
def initTeamBatPeriod (key : String) : TeamBatPeriod :=
  { periodKey := key, ab := 0, h := 0, bb := 0, hbp := 0, sf := 0, runs := 0
    doubles := 0, triples := 0, hr := 0, so := 0, sb := 0 }

/-- Add one batting row into a team period bucket. -/
def addTeamBatRow (p : TeamBatPeriod) (r : BatRow) : TeamBatPeriod :=
  { p with
    ab := p.ab + r.ab, h := p.h + r.h, runs := p.runs + r.runs
    bb := p.bb + r.bb, hbp := p.hbp + r.hbp, sf := p.sf + r.sf
    doubles := p.doubles + r.doubles, triples := p.triples + r.triples
    hr := p.hr + r.hr, so := p.so + r.so, sb := p.sb + r.sb }

/-- Accumulate the team batting period buckets keyed by `teamGetKey`. -/
def teamBatPeriods (rows : List BatRow) (tp : TrendPeriod) : List TeamBatPeriod :=
  rows.foldl
    (fun acc r =>
      let key := teamGetKey r.date r.homeTeam r.awayTeam tp
      if acc.any (fun p => p.periodKey = key) then
        acc.map fun p => if p.periodKey = key then addTeamBatRow p r else p
      else acc ++ [addTeamBatRow (initTeamBatPeriod key) r])
    []

/-- A finished team batting trend point (the bucket's own summed stats plus
snapshot rates). -/
structure TeamBatPoint where
  periodKey : String
  ab : ℚ
  h : ℚ
  bb : ℚ
  hbp : ℚ
  sf : ℚ
  runs : ℚ
  doubles : ℚ
  triples : ℚ
  hr : ℚ
  so : ℚ
  sb : ℚ
  avg : ℚ
  ops : ℚ
  bbRate : ℚ
  soRate : ℚ
  deriving DecidableEq

/-- Snapshot rates of one team batting period (App.jsx lines 538-552). -/
def finalizeTeamBat (m : TeamBatPeriod) : TeamBatPoint :=
  let avg := safeDiv m.h m.ab
  let obp := safeDiv (m.h + m.bb + m.hbp) (m.ab + m.bb + m.hbp + m.sf)
  let slg := safeDiv ((m.h - m.doubles - m.triples - m.hr) + m.doubles * 2 +
      m.triples * 3 + m.hr * 4) m.ab
  let pa := m.ab + m.bb + m.hbp + m.sf
  let bbRate := safeDiv (m.bb + m.hbp) pa * 100
  let soRate := safeDiv m.so pa * 100
  { periodKey := m.periodKey, ab := m.ab, h := m.h, bb := m.bb, hbp := m.hbp
    sf := m.sf, runs := m.runs, doubles := m.doubles, triples := m.triples
    hr := m.hr, so := m.so, sb := m.sb
    avg := jsToFixed 3 avg, ops := jsToFixed 3 (obp + slg)
    bbRate := jsToFixed 1 bbRate, soRate := jsToFixed 1 soRate }

/-- Team batting trend: bucket, sort by period key
(`a.periodKey.localeCompare(b.periodKey)`), snapshot rates per bucket. -/
def teamBattingTrend (rows : List BatRow) (tp : TrendPeriod) : List TeamBatPoint :=
  ((teamBatPeriods rows tp).insertionSort
      fun a b => strLe a.periodKey b.periodKey = true).map finalizeTeamBat

/-- One team pitching period bucket (accumulation phase). -/
structure TeamPitchPeriod where
  periodKey : String
  outs : ℚ
  er : ℚ
  h : ℚ
  bb : ℚ
  hbp : ℚ
  so : ℚ
  s : ℚ
  pitches : ℚ
  deriving DecidableEq

/-- Fresh team pitching period bucket. -/
def initTeamPitchPeriod (key : String) : TeamPitchPeriod :=
  { periodKey := key, outs := 0, er := 0, h := 0, bb := 0, hbp := 0, so := 0
    s := 0, pitches := 0 }

/-- Add one pitching row into a team period bucket. -/
def addTeamPitchRow (p : TeamPitchPeriod) (r : PitchRow) : TeamPitchPeriod :=
  { p with
    outs := p.outs + r.outs, er := p.er + r.er, h := p.h + r.h
    bb := p.bb + r.bb, hbp := p.hbp + r.hbp, so := p.so + r.so
    s := p.s + r.strikes, pitches := p.pitches + r.pitches }

/-- Accumulate the team pitching period buckets keyed by `teamGetKey`. -/
def teamPitchPeriods (rows : List PitchRow) (tp : TrendPeriod) : List TeamPitchPeriod :=
  rows.foldl
    (fun acc r =>
      let key := teamGetKey r.date r.homeTeam r.awayTeam tp
      if acc.any (fun p => p.periodKey = key) then
        acc.map fun p => if p.periodKey = key then addTeamPitchRow p r else p
      else acc ++ [addTeamPitchRow (initTeamPitchPeriod key) r])
    []

/-- A finished team pitching trend point. -/
structure TeamPitchPoint where
  periodKey : String
  outs : ℚ
  er : ℚ
  h : ℚ
  bb : ℚ
  hbp : ℚ
  so : ℚ
  s : ℚ
  pitches : ℚ
  bbhbp : ℚ
  era : ℚ
  whip : ℚ
  kPer7 : ℚ
  bbPer7 : ℚ
  strikeRate : ℚ
  deriving DecidableEq

/-- Snapshot rates of one team pitching period (App.jsx lines 572-580). -/
def finalizeTeamPitch (m : TeamPitchPeriod) : TeamPitchPoint :=
  let innings := m.outs / 3
  let era := safeDiv (m.er * 7) innings
  let whip := safeDiv (m.h + m.bb + m.hbp) innings
  let kPer7 := safeDiv (m.so * 7) innings
  let bbPer7 := safeDiv ((m.bb + m.hbp) * 7) innings
  let strikeRate := safeDiv m.s m.pitches * 100
  { periodKey := m.periodKey, outs := m.outs, er := m.er, h := m.h, bb := m.bb
    hbp := m.hbp, so := m.so, s := m.s, pitches := m.pitches
    bbhbp := m.bb + m.hbp
    era := jsToFixed 2 era, whip := jsToFixed 2 whip
    kPer7 := jsToFixed 2 kPer7, bbPer7 := jsToFixed 2 bbPer7
    strikeRate := jsToFixed 1 strikeRate }

/-- Team pitching trend. -/
def teamPitchingTrend (rows : List PitchRow) (tp : TrendPeriod) : List TeamPitchPoint :=
  ((teamPitchPeriods rows tp).insertionSort
      fun a b => strLe a.periodKey b.periodKey = true).map finalizeTeamPitch

/-! ## Player cumulative trends (App.jsx lines 649-821) -/

/-- The player-trend `getKey` (App.jsx lines 652-668 and 738-754): for the
`game` granularity the literal date string, else the monthly/quarterly key of
the parsed date.  As with `teamGetKey`, the `isNaN` guard in the source is
unreachable because `parseDate` is total. -/
def playerGetKey (date : String) : TrendPeriod → String
  | .game => date
  | .quarterly => quarterKey (parseDate date)
  | .monthly => monthKey (parseDate date)

/-- Per-period batting sums for a player (the `periodStats` reducer,
App.jsx lines 686-698). -/
structure BatPS where
  ab : ℚ
  h : ℚ
  bb : ℚ
  hbp : ℚ
  sf : ℚ
  doubles : ℚ
  triples : ℚ
  hr : ℚ
  rbi : ℚ
  so : ℚ
  deriving DecidableEq

/-- The zero `BatPS`. -/
def zeroBatPS : BatPS :=
  { ab := 0, h := 0, bb := 0, hbp := 0, sf := 0, doubles := 0, triples := 0
    hr := 0, rbi := 0, so := 0 }

/-- Pointwise sum of two `BatPS` (the cumulative merge, App.jsx lines
700-702). -/
def addBatPS (a b : BatPS) : BatPS :=
  { ab := a.ab + b.ab, h := a.h + b.h, bb := a.bb + b.bb, hbp := a.hbp + b.hbp
    sf := a.sf + b.sf, doubles := a.doubles + b.doubles
    triples := a.triples + b.triples, hr := a.hr + b.hr, rbi := a.rbi + b.rbi
    so := a.so + b.so }

/-- Sum one period's rows. -/
def sumBatPS (rows : List BatRow) : BatPS :=
  rows.foldl
    (fun acc r =>
      { ab := acc.ab + r.ab, h := acc.h + r.h, bb := acc.bb + r.bb
        hbp := acc.hbp + r.hbp, sf := acc.sf + r.sf
        doubles := acc.doubles + r.doubles, triples := acc.triples + r.triples
        hr := acc.hr + r.hr, rbi := acc.rbi + r.rbi, so := acc.so + r.so })
    zeroBatPS

/-- One point of a player's batting trend (App.jsx lines 722-732): the
derived rates come from the cumulative stats, while the spread
`...periodStats` carries that period's own counting stats. -/
structure PlayerBatPoint where
  periodKey : String
  opponent : String
  avg : ℚ
  ops : ℚ
  slg : ℚ
  obp : ℚ
  bbRate : ℚ
  soRate : ℚ
  ab : ℚ
  h : ℚ
  bb : ℚ
  hbp : ℚ
  sf : ℚ
  doubles : ℚ
  triples : ℚ
  hr : ℚ
  rbi : ℚ
  so : ℚ
  deriving DecidableEq

/-- Build one player batting trend point from the period's rows `rs`, the
period sums `ps` and the cumulative stats `c` through this period. -/
def mkPlayerBatPoint (key : String) (rs : List BatRow) (ps c : BatPS)
    (tp : TrendPeriod) : PlayerBatPoint :=
  let avg := safeDiv c.h c.ab
  let obp := safeDiv (c.h + c.bb + c.hbp) (c.ab + c.bb + c.hbp + c.sf)
  let singles := c.h - c.doubles - c.triples - c.hr
  let tb := singles + c.doubles * 2 + c.triples * 3 + c.hr * 4
  let pa := c.ab + c.bb + c.hbp + c.sf
  let soRate := safeDiv c.so pa * 100
  let bbRate := safeDiv (c.bb + c.hbp) pa * 100
  let slg := safeDiv tb c.ab
  let opponent :=
    match tp, rs with
    | .game, r :: _ => opponentOf r.homeTeam r.awayTeam
    | _, _ => ""
  { periodKey := key, opponent := opponent
    avg := jsToFixed 3 avg, ops := jsToFixed 3 (obp + slg)
    slg := jsToFixed 3 slg, obp := jsToFixed 3 obp
    bbRate := jsToFixed 1 bbRate, soRate := jsToFixed 1 soRate
    ab := ps.ab, h := ps.h, bb := ps.bb, hbp := ps.hbp, sf := ps.sf
    doubles := ps.doubles, triples := ps.triples, hr := ps.hr, rbi := ps.rbi
    so := ps.so }

/-- The sorted-key walk of the player batting trend, carrying the running
cumulative stats. -/
def buildBatTrend (tp : TrendPeriod) :
    BatPS → List (String × List BatRow) → List PlayerBatPoint
  | _, [] => []
  | cum, (key, rs) :: rest =>
      let ps := sumBatPS rs
      let c := addBatPS cum ps
      mkPlayerBatPoint key rs ps c tp :: buildBatTrend tp c rest

/-- Group a player's rows by period key, sorted by key
(`Object.keys(grouped).sort()`); each group keeps its rows in original
order. -/
def playerGroupsB (rows : List BatRow) (pid : String) (tp : TrendPeriod) :
    List (String × List BatRow) :=
  let mine := rows.filter fun r => batPid r = pid
  let keyed := mine.map fun r => (playerGetKey r.date tp, r)
  let keys := ((keyed.map Prod.fst).dedup).insertionSort fun a b => strLe a b = true
  keys.map fun k => (k, (keyed.filter fun p => p.1 = k).map Prod.snd)

/-- `playerBattingTrendData` (App.jsx lines 649-734). -/
def playerBattingTrendData (rows : List BatRow) (pid : String)
    (tp : TrendPeriod) : List PlayerBatPoint :=
  buildBatTrend tp zeroBatPS (playerGroupsB rows pid tp)

/-- Per-period pitching sums (the `periodStats` reducer, App.jsx lines
772-782); `pitches`/`strikes` are summed here but never enter the
cumulative accumulator. -/
structure PitchPS where
  outs : ℚ
  er : ℚ
  bb : ℚ
  hbp : ℚ
  h : ℚ
  so : ℚ
  pitches : ℚ
  strikes : ℚ
  deriving DecidableEq

/-- The zero `PitchPS`. -/
def zeroPitchPS : PitchPS :=
  { outs := 0, er := 0, bb := 0, hbp := 0, h := 0, so := 0, pitches := 0
    strikes := 0 }

/-- Sum one period's pitching rows. -/
def sumPitchPS (rows : List PitchRow) : PitchPS :=
  rows.foldl
    (fun acc r =>
      { outs := acc.outs + r.outs, er := acc.er + r.er, bb := acc.bb + r.bb
        hbp := acc.hbp + r.hbp, h := acc.h + r.h, so := acc.so + r.so
        pitches := acc.pitches + r.pitches, strikes := acc.strikes + r.strikes })
    zeroPitchPS

/-- The player pitching cumulative accumulator (App.jsx line 768): only
`outs, er, bb, hbp, h, so` are accumulated —
`Object.keys(cumulative).forEach` adds exactly the keys of `cumulative`, so
`pitches`/`strikes` never enter it. -/
structure PitchCum where
  outs : ℚ
  er : ℚ
  bb : ℚ
  hbp : ℚ
  h : ℚ
  so : ℚ
  deriving DecidableEq

/-- The zero `PitchCum`. -/
def zeroPitchCum : PitchCum :=
  { outs := 0, er := 0, bb := 0, hbp := 0, h := 0, so := 0 }

/-- Merge one period's sums into the cumulative accumulator (only the
`PitchCum` keys). -/
def addPitchCum (c : PitchCum) (ps : PitchPS) : PitchCum :=
  { outs := c.outs + ps.outs, er := c.er + ps.er, bb := c.bb + ps.bb
    hbp := c.hbp + ps.hbp, h := c.h + ps.h, so := c.so + ps.so }

/-- One point of a player's pitching trend (App.jsx lines 806-819): `era`,
`whip`, `kbb`, `kPer7`, `bbPer7` come from the cumulative stats; `innings`,
`strikeRate`, `bb`, `hbp`, `pitches` come from that period's own sums. -/
structure PlayerPitchPoint where
  periodKey : String
  opponent : String
  era : ℚ
  whip : ℚ
  kbb : ℚ
  innings : ℚ
  kPer7 : ℚ
  bbPer7 : ℚ
  strikeRate : ℚ
  bb : ℚ
  hbp : ℚ
  pitches : ℚ
  deriving DecidableEq

/-- Build one player pitching trend point. -/
def mkPlayerPitchPoint (key : String) (rs : List PitchRow) (ps : PitchPS)
    (c : PitchCum) (tp : TrendPeriod) : PlayerPitchPoint :=
  let era := safeDiv (c.er * 7) (c.outs / 3)
  let whip := safeDiv (c.bb + c.hbp + c.h) (c.outs / 3)
  let kbb := safeDiv c.so c.bb
  let kPer7 := safeDiv (c.so * 7) (c.outs / 3)
  let bbPer7 := safeDiv ((c.bb + c.hbp) * 7) (c.outs / 3)
  let innings := ps.outs / 3
  let strikeRate := safeDiv ps.strikes ps.pitches * 100
  let opponent :=
    match tp, rs with
    | .game, r :: _ => opponentOf r.homeTeam r.awayTeam
    | _, _ => ""
  { periodKey := key, opponent := opponent
    era := jsToFixed 2 era, whip := jsToFixed 2 whip, kbb := jsToFixed 2 kbb
    innings := jsToFixed 1 innings
    kPer7 := jsToFixed 2 kPer7, bbPer7 := jsToFixed 2 bbPer7
    strikeRate := jsToFixed 1 strikeRate
    bb := ps.bb, hbp := ps.hbp, pitches := ps.pitches }

/-- The sorted-key walk of the player pitching trend. -/
def buildPitchTrend (tp : TrendPeriod) :
    PitchCum → List (String × List PitchRow) → List PlayerPitchPoint
  | _, [] => []
  | cum, (key, rs) :: rest =>
      let ps := sumPitchPS rs
      let c := addPitchCum cum ps
      mkPlayerPitchPoint key rs ps c tp :: buildPitchTrend tp c rest

/-- Group a player's pitching rows by period key, sorted by key. -/
def playerGroupsP (rows : List PitchRow) (pid : String) (tp : TrendPeriod) :
    List (String × List PitchRow) :=
  let mine := rows.filter fun r => pitchPid r = pid
  let keyed := mine.map fun r => (playerGetKey r.date tp, r)
  let keys := ((keyed.map Prod.fst).dedup).insertionSort fun a b => strLe a b = true
  keys.map fun k => (k, (keyed.filter fun p => p.1 = k).map Prod.snd)

/-- `playerPitchingTrendData` (App.jsx lines 736-821). -/
def playerPitchingTrendData (rows : List PitchRow) (pid : String)
    (tp : TrendPeriod) : List PlayerPitchPoint :=
  buildPitchTrend tp zeroPitchCum (playerGroupsP rows pid tp)

/-! ## Game outcome derivation (App.jsx lines 585-646) -/

/-- One game entry of the `gamesMap` (first pass). -/
structure GameAcc where
  id : String
  date : String
  opponent : String
  scoreText : String
  runsScored : ℚ
  runsAllowed : ℚ
  deriving DecidableEq

/-- Fresh game entry, identity fields from the first batting row seen for
this game id, runs initialised to `0`. -/
def initGame (r : BatRow) : GameAcc :=
  let o := opponentOf r.homeTeam r.awayTeam
  { id := r.gameId, date := r.date
    opponent := if o = "" then "不明" else o
    scoreText := r.scoreText, runsScored := 0, runsAllowed := 0 }

/-- One step of the first pass: skip rows without a game id
(`if (!gameId) return`); create the entry on first sight of an id; add the
row's `得点` into the (unique) entry with that id. -/
def batGameStep (acc : List GameAcc) (r : BatRow) : List GameAcc :=
  if r.gameId = "" then acc
  else
    (if acc.any (fun g => g.id = r.gameId) then acc
     else acc ++ [initGame r]).map
      fun g =>
        if g.id = r.gameId then { g with runsScored := g.runsScored + r.runs }
        else g

/-- First pass: establish one entry per distinct non-empty game id seen in
batting rows, in first-seen order, accumulating `得点` into `runsScored`. -/
def gamesFromBatting (rows : List BatRow) : List GameAcc :=
  rows.foldl batGameStep []

/-- One step of the second pass: add the pitching row's `失点` into the
entry with the same game id, if any (`if (gamesMap.has(gameId))`). -/
def pitchGameStep (acc : List GameAcc) (r : PitchRow) : List GameAcc :=
  if acc.any (fun g => g.id = r.gameId) then
    acc.map fun g =>
      if g.id = r.gameId then { g with runsAllowed := g.runsAllowed + r.r }
      else g
  else acc

/-- Second pass: merge runs allowed, ignoring pitching rows whose game id
has no batting-derived entry. -/
def addRunsAllowed (games : List GameAcc) (rows : List PitchRow) : List GameAcc :=
  rows.foldl pitchGameStep games

/-- W/L/T classification of a game entry. -/
def classify (g : GameAcc) : String :=
  if g.runsScored > g.runsAllowed then "W"
  else if g.runsScored < g.runsAllowed then "L"
  else "T"

/-- Replace the first `-` by `/` (JS `replace('-', '/')` with a string
pattern replaces only the first occurrence). -/
def replaceFirstDash : List Char → List Char
  | [] => []
  | c :: cs => if c = '-' then '/' :: cs else c :: replaceFirstDash cs

/-- The chart label `` `${date.substring(5).replace('-', '/')} vs ${opponent}` ``. -/
def gameLabel (g : GameAcc) : String :=
  String.mk (replaceFirstDash (g.date.toList.drop 5)) ++ " vs " ++ g.opponent

/-- One finished game result. -/
structure GameResult where
  id : String
  date : String
  opponent : String
  scoreText : String
  runsScored : ℚ
  runsAllowed : ℚ
  result : String
  winningPercentage : ℚ
  label : String
  deriving DecidableEq

/-- The chronological walk: classify each game and attach the running win
percentage `wins / gamesPlayed` recomputed after that game. -/
def walkGames : ℚ → ℚ → List GameAcc → List GameResult
  | _, _, [] => []
  | wins, played, g :: rest =>
      let res := classify g
      let played1 := played + 1
      let wins1 := if res = "W" then wins + 1 else wins
      { id := g.id, date := g.date, opponent := g.opponent
        scoreText := g.scoreText, runsScored := g.runsScored
        runsAllowed := g.runsAllowed, result := res
        winningPercentage := jsToFixed 3 (safeDiv wins1 played1)
        label := gameLabel g } :: walkGames wins1 played1 rest

/-- The entries of the games map, chronologically sorted by parsed date
(stable numeric-comparator sort). -/
def sortedGames (bat : List BatRow) (pitch : List PitchRow) : List GameAcc :=
  (addRunsAllowed (gamesFromBatting bat) pitch).insertionSort
    fun a b => parseDate a.date ≤ parseDate b.date

/-- `gameByGameStats`: empty input short-circuits; otherwise build entries
from batting rows, merge runs allowed from pitching rows, sort
chronologically and walk. -/
def gameByGameStats (bat : List BatRow) (pitch : List PitchRow) :
    List GameResult :=
  if bat = [] then [] else walkGames 0 0 (sortedGames bat pitch)

/-! ## Ranking engine (App.jsx lines 825-863) -/

/-- The selectable comparison metrics (the union of the batting and pitching
metric option lists). -/
inductive Metric
  | avg
  | ops
  | hr
  | rbi
  | sb
  | obp
  | slg
  | bb
  | so
  | era
  | whip
  | kbb
  | win
  | displayInnings
  deriving DecidableEq

/-- Dynamic field access `p[comparisonMetric]` on a batting summary:
`none` models JS `undefined` for metrics a batting summary does not carry
(`era`, `whip`, `kbb`, `win`, `displayInnings`; note the batting walk/K
ratio is stored under the key `bbK`, not `kbb`). -/
def batMetricVal : Metric → BatSummary → Option ℚ
  | .avg, p => some p.avg
  | .ops, p => some p.ops
  | .hr, p => some p.hr
  | .rbi, p => some p.rbi
  | .sb, p => some p.sb
  | .obp, p => some p.obp
  | .slg, p => some p.slg
  | .bb, p => some p.bb
  | .so, p => some p.so
  | _, _ => none

/-- Dynamic field access `p[comparisonMetric]` on a pitching summary.
`displayInnings` is a string field, so its raw access carries no numeric
value; the ranking code special-cases it to `inningsVal` before use. -/
def pitchMetricVal : Metric → PitchSummary → Option ℚ
  | .era, p => some p.era
  | .whip, p => some p.whip
  | .kbb, p => some p.kbb
  | .so, p => some p.so
  | .win, p => some p.win
  | .bb, p => some p.bb
  | _, _ => none

/-- One entry of the ranking output.  The `displayValue` formatting of the
source (string rendering with `toFixed`/`formatRate`) is presentation-only
and not modelled. -/
structure RankEntry where
  name : String
  value : Option ℚ
  deriving DecidableEq

/-- Ascending comparator `(a.value ?? Infinity) - (b.value ?? Infinity) ≤ 0`:
a missing value compares as `+∞`. -/
def ascLE : Option ℚ → Option ℚ → Bool
  | _, none => true
  | none, some _ => false
  | some x, some y => decide (x ≤ y)

/-- Descending comparator `(b.value ?? -Infinity) - (a.value ?? -Infinity) ≤ 0`:
a missing value compares as `-∞`. -/
def descLE : Option ℚ → Option ℚ → Bool
  | none, none => true
  | some _, none => true
  | none, some _ => false
  | some x, some y => decide (y ≤ x)

/-- Which data set the comparison view ranks. -/
inductive DataType
  | batting
  | pitching
  deriving DecidableEq

/-- `rankingData`: filter by the minimum-usage threshold (plate appearances
for batting, innings value for pitching), project out the chosen metric,
then sort — ascending for `era`/`whip` (lower is better), descending
otherwise, missing values to the worst position in either direction. -/
def rankingData (batS : List BatSummary) (pitchS : List PitchSummary)
    (dt : DataType) (metric : Metric) (minPA : ℚ) : List RankEntry :=
  let data : List RankEntry :=
    match dt with
    | .pitching =>
        (pitchS.filter fun p => minPA ≤ p.inningsVal).map fun p =>
          { name := p.name
            value :=
              if metric = .displayInnings then some p.inningsVal
              else pitchMetricVal metric p }
    | .batting =>
        (batS.filter fun p => minPA ≤ p.pa).map fun p =>
          { name := p.name, value := batMetricVal metric p }
  if metric = .era ∨ metric = .whip then
    data.insertionSort fun a b => ascLE a.value b.value = true
  else
    data.insertionSort fun a b => descLE a.value b.value = true

/-! ## Sample rows used by concrete instances -/

/-- A batting row with empty identity fields and all stats zero; concrete
rows are built by updating it. -/
def blankBatRow : BatRow :=
  { playerId := "", name := "", number := "", date := "", gameId := ""
    title := "", scoreText := "", awayTeam := "", homeTeam := ""
    pa := 0, ab := 0, h := 0, doubles := 0, triples := 0, hr := 0, rbi := 0
    runs := 0, so := 0, bb := 0, hbp := 0, sb := 0, sf := 0, sac := 0 }

/-- A pitching row with empty identity fields and all stats zero. -/
def blankPitchRow : PitchRow :=
  { playerId := "", name := "", number := "", date := "", gameId := ""
    title := "", scoreText := "", awayTeam := "", homeTeam := ""
    outs := 0, h := 0, r := 0, er := 0, bb := 0, hbp := 0, so := 0, win := 0
    loss := 0, sv := 0, strikes := 0, pitches := 0 }

/-! ## General lemmas -/

/-- Unfolding of `gameByGameStats` on a non-empty batting input. -/
lemma gameByGameStats_cons (b : BatRow) (bs : List BatRow)
    (pitch : List PitchRow) :
    gameByGameStats (b :: bs) pitch =
      walkGames 0 0 (sortedGames (b :: bs) pitch) := by
  simp [gameByGameStats]

/-! ## Claims -/

/-- C4: `safeDiv` never divides by zero: a zero denominator yields `0`, a
zero numerator over a positive denominator yields `0`, and otherwise it is
the exact quotient.  In this model JS numbers are rationals, so every value
`safeDiv` produces — and hence every derived rate built from it — is a
well-formed number; no `NaN`/`Infinity` can arise because the only division
performed is guarded by the zero test. -/
theorem C4_safeDiv_total (a b : ℚ) :
    safeDiv a 0 = 0 ∧ (b ≠ 0 → safeDiv a b = a / b) ∧ (0 < b → safeDiv 0 b = 0) := by
  refine ⟨by simp [safeDiv], fun hb => by simp [safeDiv, hb], fun _ => ?_⟩
  by_cases hb : b = 0 <;> simp [safeDiv, hb]

/-- Witness for C4 at `a = 5`, `b = 3`. -/
theorem C4_safeDiv_total_witness :
    safeDiv 5 0 = 0 ∧ safeDiv 5 3 = 5 / 3 ∧ safeDiv 0 3 = 0 :=
  ⟨(C4_safeDiv_total 5 3).1, (C4_safeDiv_total 5 3).2.1 (by norm_num),
    (C4_safeDiv_total 5 3).2.2 (by norm_num)⟩

/-- C3 (amended): every aggregated batting summary's `ops` is the 3-decimal
rounding of the sum of the *unrounded* `obp` and `slg` rates recomputed from
the summary's counting stats (while the stored `obp` and `slg` fields are
the individually rounded rates) — not the rounding of the sum of the two
stored, already-rounded fields. -/
theorem C3_ops_rounds_raw_sum (rows : List BatRow) (s : BatSummary)
    (hs : s ∈ aggregatedBatting rows) :
    s.obp = jsToFixed 3 (safeDiv (s.h + s.bb + s.hbp) (s.ab + s.bb + s.hbp + s.sf)) ∧
    s.slg = jsToFixed 3 (safeDiv ((s.h - s.doubles - s.triples - s.hr) +
      s.doubles * 2 + s.triples * 3 + s.hr * 4) s.ab) ∧
    s.ops = jsToFixed 3
      (safeDiv (s.h + s.bb + s.hbp) (s.ab + s.bb + s.hbp + s.sf) +
        safeDiv ((s.h - s.doubles - s.triples - s.hr) +
          s.doubles * 2 + s.triples * 3 + s.hr * 4) s.ab) := by
  rw [aggregatedBatting, (List.perm_insertionSort _ _).mem_iff, List.mem_map] at hs
  obtain ⟨p, -, rfl⟩ := hs
  exact ⟨by simp [finalizeBat], by simp [finalizeBat], by simp [finalizeBat]⟩

/-- Counterexample to C3 as stated: for a player with `ab = 3`, `h = 1` the
raw `obp` and `slg` are both `1/3`, so the summary stores
`obp = slg = 0.333` and `ops = round3(2/3) = 0.667`, whereas rounding the
sum of the stored rates gives `round3(0.666) = 0.666 ≠ 0.667`. -/
theorem C3_counterexample :
    (aggregatedBatting [{ blankBatRow with name := "A", ab := 3, h := 1 }]).map
      (fun s => (s.ops, jsToFixed 3 (s.obp + s.slg))) = [(667/1000, 666/1000)] ∧
    ((667 : ℚ)/1000) ≠ 666/1000 := by
  constructor
  · norm_num [aggregatedBatting, aggBatRows, finalizeBat, initBatAcc, addBatRow,
      batPid, jsToFixed, safeDiv, List.insertionSort, blankBatRow]
  · norm_num

/-- The single summary produced by aggregating the C3 sample row. -/
def C3sample : BatSummary :=
  { id := "", name := "A", number := "", games := 1, pa := 0, ab := 3, h := 1
    doubles := 0, triples := 0, hr := 0, rbi := 0, runs := 0, so := 0, bb := 0
    hbp := 0, sb := 0, sf := 0, sac := 0
    avg := 333/1000, obp := 333/1000, slg := 333/1000, ops := 667/1000
    bbK := 0, isoD := 0 }

/-- Evaluation of the aggregation on the C3 sample row. -/
lemma C3sample_eval :
    aggregatedBatting [{ blankBatRow with name := "A", ab := 3, h := 1 }] =
      [C3sample] := by
  norm_num [aggregatedBatting, aggBatRows, finalizeBat, initBatAcc, addBatRow,
    batPid, jsToFixed, safeDiv, List.insertionSort, blankBatRow, C3sample]

/-- Witness for the amended C3 at the sample summary. -/
theorem C3_ops_rounds_raw_sum_witness :
    C3sample.ops = jsToFixed 3
      (safeDiv (C3sample.h + C3sample.bb + C3sample.hbp)
          (C3sample.ab + C3sample.bb + C3sample.hbp + C3sample.sf) +
        safeDiv ((C3sample.h - C3sample.doubles - C3sample.triples - C3sample.hr) +
          C3sample.doubles * 2 + C3sample.triples * 3 + C3sample.hr * 4)
          C3sample.ab) :=
  (C3_ops_rounds_raw_sum [{ blankBatRow with name := "A", ab := 3, h := 1 }]
    C3sample (by rw [C3sample_eval]; exact List.mem_singleton.mpr rfl)).2.2

/-- C5: every aggregated pitching summary's `era` is
`round2((earnedRuns × 7) / (outs / 3))` — the 7-inning scale — and an `era`
with `earnedRuns = 0` and positive `outs` is `0`; concretely,
`earnedRuns = 7`, `outs = 9` gives `era = 16.33`. -/
theorem C5_era_seven_inning_scale :
    (∀ (rows : List PitchRow) (s : PitchSummary), s ∈ aggregatedPitching rows →
      s.era = jsToFixed 2 (safeDiv (s.er * 7) (s.outs / 3)) ∧
      (s.er = 0 → 0 < s.outs → s.era = 0)) ∧
    (aggregatedPitching [{ blankPitchRow with name := "P", er := 7, outs := 9 }]).map
      (fun s => s.era) = [1633/100] := by
  constructor
  · intro rows s hs
    rw [aggregatedPitching, (List.perm_insertionSort _ _).mem_iff,
      List.mem_map] at hs
    obtain ⟨p, -, rfl⟩ := hs
    refine ⟨by simp [finalizePitch], fun h0 _ => ?_⟩
    simp only [finalizePitch] at h0 ⊢
    have hz : safeDiv (0 * 7) (p.2.outs / 3) = 0 := by simp [safeDiv]
    rw [h0, hz]
    norm_num [jsToFixed]
  · norm_num [aggregatedPitching, aggPitchRows, finalizePitch, initPitchAcc,
      addPitchRow, pitchPid, jsToFixed, safeDiv, List.insertionSort,
      blankPitchRow]

/-- The single summary produced by aggregating the C5 sample row with
`er = 7`, `outs = 9`. -/
def C5sample : PitchSummary :=
  { id := "", name := "P", number := "", games := 1, outs := 9, h := 0, r := 0
    er := 7, bb := 0, hbp := 0, so := 0, win := 0, loss := 0, sv := 0
    displayInnings := "3", era := 1633/100, whip := 0, kbb := 0, inningsVal := 3 }

/-- Evaluation of the aggregation on the C5 sample row. -/
lemma C5sample_eval :
    aggregatedPitching [{ blankPitchRow with name := "P", er := 7, outs := 9 }] =
      [C5sample] := by
  norm_num [aggregatedPitching, aggPitchRows, finalizePitch, initPitchAcc,
    addPitchRow, pitchPid, jsToFixed, safeDiv, List.insertionSort, ratStr,
    blankPitchRow, C5sample, (by decide : toString (3 : Int) = "3")]

/-- Witness for C5 at the sample summary. -/
theorem C5_era_seven_inning_scale_witness :
    C5sample.era = jsToFixed 2 (safeDiv (C5sample.er * 7) (C5sample.outs / 3)) :=
  ((C5_era_seven_inning_scale.1
    [{ blankPitchRow with name := "P", er := 7, outs := 9 }] C5sample
    (by rw [C5sample_eval]; exact List.mem_singleton.mpr rfl))).1

/-- C7: a row passes `filterData`'s date predicate iff its parsed date is at
least the parsed `startDate` (when that filter is set) and strictly before
the parsed `endDate` plus one day (when that filter is set); hence with
`endDate = "2025-10-05"` a row dated exactly `2025-10-05` is kept and a row
dated `2025-10-06` (the end date plus one day) is dropped. -/
theorem C7_filter_date_boundary :
    (∀ (f : Filters) (date : String),
      datePass f date = true ↔
        ((f.startDate ≠ "" → parseDate f.startDate ≤ parseDate date) ∧
         (f.endDate ≠ "" → parseDate date < parseDate f.endDate + 1))) ∧
    (∀ r : BatRow, r.date = "2025-10-05" →
      filterBatting ⟨"", "2025-10-05", "", "all"⟩ [r] = [r]) ∧
    (∀ r : BatRow, r.date = "2025-10-06" →
      filterBatting ⟨"", "2025-10-05", "", "all"⟩ [r] = []) := by
  refine ⟨fun f date => ?_, fun r hr => ?_, fun r hr => ?_⟩
  · unfold datePass
    split_ifs with h1 h2
    · simp only [Bool.false_eq_true, false_iff]
      intro hc
      exact absurd (hc.1 h1.1) (by omega)
    · simp only [Bool.false_eq_true, false_iff]
      intro hc
      exact absurd (hc.2 h2.1) (by omega)
    · simp only [true_iff]
      refine ⟨fun hs => ?_, fun he => ?_⟩
      · have := not_and.mp h1 hs
        omega
      · have := not_and.mp h2 he
        omega
  · simp [filterBatting, rowPass, datePass, keywordPass, categoryPass, hr,
      (by decide : ¬ (parseDate "2025-10-05" + 1 ≤ parseDate "2025-10-05"))]
  · simp [filterBatting, rowPass, datePass, keywordPass, categoryPass, hr,
      (by decide : parseDate "2025-10-05" + 1 ≤ parseDate "2025-10-06")]

/-- Witness for C7: the boundary instances at concrete rows, and the iff at
a concrete filter and date. -/
theorem C7_filter_date_boundary_witness :
    (filterBatting ⟨"", "2025-10-05", "", "all"⟩
        [{ blankBatRow with date := "2025-10-05" }] =
      [{ blankBatRow with date := "2025-10-05" }]) ∧
    (filterBatting ⟨"", "2025-10-05", "", "all"⟩
        [{ blankBatRow with date := "2025-10-06" }] = []) :=
  ⟨C7_filter_date_boundary.2.1 _ rfl, C7_filter_date_boundary.2.2 _ rfl⟩

/-- C1 (amended): `parseDate` is total, so a row whose date string fails to
parse gets the sentinel epoch date in every consumer.  The filter engine
compares the sentinel like any other date (with no date criteria set the
row passes), and — contrary to the claim as stated — period bucketing does
NOT exclude the row: the `isNaN` guards in the `getKey` functions are
unreachable, so the row contributes to the epoch-derived bucket
(`"1970-01"` monthly, `"1970-Q1"` quarterly), in the team trend and in the
player trend alike. -/
theorem C1_sentinel_bucketing (r : BatRow) (h : parseDateParts r.date = none) :
    parseDate r.date = 0 ∧
    datePass ⟨"", "", "", "all"⟩ r.date = true ∧
    teamGetKey r.date r.homeTeam r.awayTeam .monthly = "1970-01" ∧
    teamGetKey r.date r.homeTeam r.awayTeam .quarterly = "1970-Q1" ∧
    (teamBattingTrend [r] .monthly).map (fun b => (b.periodKey, b.ab)) =
      [("1970-01", r.ab)] ∧
    (playerBattingTrendData [r] (batPid r) .monthly).map (fun b => b.periodKey) =
      ["1970-01"] := by
  have hp : parseDate r.date = 0 := by simp [parseDate, h]
  have hm : teamGetKey r.date r.homeTeam r.awayTeam .monthly = "1970-01" := by
    simp [teamGetKey, hp, (by decide : monthKey 0 = "1970-01")]
  have hq : teamGetKey r.date r.homeTeam r.awayTeam .quarterly = "1970-Q1" := by
    simp [teamGetKey, hp, (by decide : quarterKey 0 = "1970-Q1")]
  have hpk : playerGetKey r.date .monthly = "1970-01" := by
    simp [playerGetKey, hp, (by decide : monthKey 0 = "1970-01")]
  refine ⟨hp, by simp [datePass], hm, hq, ?_, ?_⟩
  · simp [teamBattingTrend, teamBatPeriods, addTeamBatRow, initTeamBatPeriod,
      finalizeTeamBat, List.insertionSort, hm]
  · simp [playerBattingTrendData, playerGroupsB, buildBatTrend,
      mkPlayerBatPoint, sumBatPS, zeroBatPS, addBatPS, List.insertionSort,
      hpk]

/-- Counterexample to C1 as stated: the row dated `"garbage"` — a string
the date parser cannot parse — is NOT excluded from monthly bucketing; it
produces the epoch bucket `"1970-01"` carrying the row's stats. -/
theorem C1_counterexample :
    parseDateParts "garbage" = none ∧
    (teamBattingTrend [{ blankBatRow with date := "garbage", ab := 2 }]
        .monthly).map (fun b => (b.periodKey, b.ab)) = [("1970-01", 2)] := by
  refine ⟨by decide, ?_⟩
  simp [teamBattingTrend, teamBatPeriods, addTeamBatRow, initTeamBatPeriod,
    finalizeTeamBat, List.insertionSort, blankBatRow, teamGetKey,
    (by decide : parseDate "garbage" = 0),
    (by decide : monthKey 0 = "1970-01")]

/-- Witness for the amended C1 at the `"garbage"`-dated row. -/
theorem C1_sentinel_bucketing_witness :
    parseDate "garbage" = 0 ∧
    datePass ⟨"", "", "", "all"⟩ "garbage" = true ∧
    teamGetKey "garbage" "" "" .monthly = "1970-01" ∧
    teamGetKey "garbage" "" "" .quarterly = "1970-Q1" ∧
    (teamBattingTrend [{ blankBatRow with date := "garbage", ab := 2 }]
        .monthly).map (fun b => (b.periodKey, b.ab)) = [("1970-01", 2)] ∧
    (playerBattingTrendData [{ blankBatRow with date := "garbage", ab := 2 }]
        "" .monthly).map (fun b => b.periodKey) = ["1970-01"] :=
  C1_sentinel_bucketing { blankBatRow with date := "garbage", ab := 2 }
    (by decide)

/-! ## Cumulative-trend infrastructure (C2, C10) -/

/-- Cumulative batting stats through the `k`-th (0-based) sorted period:
the running merge of the per-period sums of periods `0..k`. -/
def cumBatPS (groups : List (String × List BatRow)) (k : ℕ) : BatPS :=
  ((groups.take (k + 1)).map fun g => sumBatPS g.2).foldl addBatPS zeroBatPS

/-- Cumulative pitching stats through the `k`-th sorted period (only the
six fields of the source's `cumulative` object). -/
def cumPitchPS (groups : List (String × List PitchRow)) (k : ℕ) : PitchCum :=
  ((groups.take (k + 1)).map fun g => sumPitchPS g.2).foldl addPitchCum
    zeroPitchCum

/-- The batting trend walk produces one point per group. -/
lemma buildBatTrend_length (tp : TrendPeriod) (cum : BatPS)
    (groups : List (String × List BatRow)) :
    (buildBatTrend tp cum groups).length = groups.length := by
  induction groups generalizing cum with
  | nil => simp [buildBatTrend]
  | cons g rest ih => cases g; simp [buildBatTrend, ih]

/-- The pitching trend walk produces one point per group. -/
lemma buildPitchTrend_length (tp : TrendPeriod) (cum : PitchCum)
    (groups : List (String × List PitchRow)) :
    (buildPitchTrend tp cum groups).length = groups.length := by
  induction groups generalizing cum with
  | nil => simp [buildPitchTrend]
  | cons g rest ih => cases g; simp [buildPitchTrend, ih]

/-- The `k`-th point of the batting trend walk started from `cum`: its
cumulative argument is the fold of the first `k+1` period sums on top of
`cum`, and its period argument is the `k`-th group's own sums. -/
lemma buildBatTrend_get (tp : TrendPeriod) :
    ∀ (groups : List (String × List BatRow)) (cum : BatPS) (k : ℕ)
      (hk : k < groups.length)
      (hk2 : k < (buildBatTrend tp cum groups).length),
      (buildBatTrend tp cum groups).get ⟨k, hk2⟩ =
        mkPlayerBatPoint (groups.get ⟨k, hk⟩).1 (groups.get ⟨k, hk⟩).2
          (sumBatPS (groups.get ⟨k, hk⟩).2)
          (((groups.take (k + 1)).map fun g => sumBatPS g.2).foldl addBatPS cum)
          tp := by
  intro groups
  induction groups with
  | nil => intro cum k hk; exact absurd hk (by simp)
  | cons g rest ih =>
      intro cum k hk hk2
      obtain ⟨key, rs⟩ := g
      match k with
      | 0 => simp [buildBatTrend]
      | k + 1 =>
          have hk' : k < rest.length := by simpa using hk
          have hk2' :
              k < (buildBatTrend tp (addBatPS cum (sumBatPS rs)) rest).length := by
            rw [buildBatTrend_length]; exact hk'
          have := ih (addBatPS cum (sumBatPS rs)) k hk' hk2'
          simpa [buildBatTrend] using this

/-- The `k`-th point of the pitching trend walk started from `cum`. -/
lemma buildPitchTrend_get (tp : TrendPeriod) :
    ∀ (groups : List (String × List PitchRow)) (cum : PitchCum) (k : ℕ)
      (hk : k < groups.length)
      (hk2 : k < (buildPitchTrend tp cum groups).length),
      (buildPitchTrend tp cum groups).get ⟨k, hk2⟩ =
        mkPlayerPitchPoint (groups.get ⟨k, hk⟩).1 (groups.get ⟨k, hk⟩).2
          (sumPitchPS (groups.get ⟨k, hk⟩).2)
          (((groups.take (k + 1)).map fun g => sumPitchPS g.2).foldl addPitchCum
            cum)
          tp := by
  intro groups
  induction groups with
  | nil => intro cum k hk; exact absurd hk (by simp)
  | cons g rest ih =>
      intro cum k hk hk2
      obtain ⟨key, rs⟩ := g
      match k with
      | 0 => simp [buildPitchTrend]
      | k + 1 =>
          have hk' : k < rest.length := by simpa using hk
          have hk2' :
              k < (buildPitchTrend tp (addPitchCum cum (sumPitchPS rs)) rest).length := by
            rw [buildPitchTrend_length]; exact hk'
          have := ih (addPitchCum cum (sumPitchPS rs)) k hk' hk2'
          simpa [buildPitchTrend] using this

/-- The `ab` component of a batting fold is the starting `ab` plus the sum
of the summands' `ab`s. -/
lemma foldl_addBatPS_ab (l : List BatPS) (c : BatPS) :
    (l.foldl addBatPS c).ab = c.ab + (l.map fun p => p.ab).sum := by
  induction l generalizing c with
  | nil => simp
  | cons p rest ih => simp [ih, addBatPS, add_assoc]

/-- The `ab` of one period's sums is the sum of its rows' `ab`s. -/
lemma sumBatPS_ab (rows : List BatRow) :
    (sumBatPS rows).ab = (rows.map fun r => r.ab).sum := by
  have step :
      ∀ (l : List BatRow) (c : BatPS),
        (l.foldl (fun acc r =>
          { ab := acc.ab + r.ab, h := acc.h + r.h, bb := acc.bb + r.bb
            hbp := acc.hbp + r.hbp, sf := acc.sf + r.sf
            doubles := acc.doubles + r.doubles
            triples := acc.triples + r.triples
            hr := acc.hr + r.hr, rbi := acc.rbi + r.rbi
            so := acc.so + r.so } : BatPS → BatRow → BatPS) c).ab =
          c.ab + (l.map fun r => r.ab).sum := by
    intro l
    induction l with
    | nil => simp
    | cons r rest ih => intro c; simp [ih, add_assoc]
  simpa [sumBatPS, zeroBatPS] using step rows zeroBatPS

/-- Cumulative `ab` through period `k` is the prefix sum of the per-period
`ab`s of periods `0..k`. -/
lemma cumBatPS_ab_sum (groups : List (String × List BatRow)) (k : ℕ) :
    (cumBatPS groups k).ab =
      ((groups.take (k + 1)).map fun g => (sumBatPS g.2).ab).sum := by
  simp [cumBatPS, foldl_addBatPS_ab, zeroBatPS, List.map_map,
    Function.comp_def]

/-- Every row of every group of `playerGroupsB` is one of the input rows. -/
lemma playerGroupsB_rows_sub (rows : List BatRow) (pid : String)
    (tp : TrendPeriod) :
    ∀ g ∈ playerGroupsB rows pid tp, ∀ r ∈ g.2, r ∈ rows := by
  intro g hg r hr
  rw [playerGroupsB, List.mem_map] at hg
  obtain ⟨key, -, rfl⟩ := hg
  rw [List.mem_map] at hr
  obtain ⟨p, hp, rfl⟩ := hr
  have hp2 := (List.mem_filter.mp hp).1
  rw [List.mem_map] at hp2
  obtain ⟨r0, hr0, rfl⟩ := hp2
  exact (List.mem_filter.mp hr0).1

/-- Cumulative `ab` is non-decreasing along the periods when every input
row's `ab` is nonnegative. -/
lemma cumBatPS_ab_mono (rows : List BatRow) (pid : String) (tp : TrendPeriod)
    (hab : ∀ r ∈ rows, (0 : ℚ) ≤ r.ab) (j k : ℕ) (hjk : j ≤ k) :
    (cumBatPS (playerGroupsB rows pid tp) j).ab ≤
      (cumBatPS (playerGroupsB rows pid tp) k).ab := by
  set G := playerGroupsB rows pid tp with hG
  have step : ∀ n, (cumBatPS G n).ab ≤ (cumBatPS G (n + 1)).ab := by
    intro n
    rw [cumBatPS_ab_sum, cumBatPS_ab_sum]
    rw [List.take_succ (n := n + 1)]
    rw [List.map_append, List.sum_append]
    have : 0 ≤ ((G[n+1]?.toList).map fun g => (sumBatPS g.2).ab).sum := by
      apply List.sum_nonneg
      intro x hx
      rw [List.mem_map] at hx
      obtain ⟨g, hg, rfl⟩ := hx
      have hgG : g ∈ G := by
        rcases hq : G[n+1]? with - | g'
        · rw [hq] at hg; simp at hg
        · rw [hq] at hg
          simp only [Option.toList_some, List.mem_singleton] at hg
          subst hg
          exact List.get?_mem (by simpa using hq)
      rw [sumBatPS_ab]
      apply List.sum_nonneg
      intro y hy
      rw [List.mem_map] at hy
      obtain ⟨r, hrg, rfl⟩ := hy
      exact hab r (playerGroupsB_rows_sub rows pid tp g (hG ▸ hgG) r hrg)
    linarith
  induction k, hjk using Nat.le_induction with
  | base => exact le_refl _
  | succ n hn ih => exact le_trans ih (step n)

/-- C2 (amended): in a player's cumulative batting trend, the derived rates
(`avg`, `obp`, `slg`, `ops`) of the bucket at sorted period index `k` are
computed from the counting stats accumulated over all periods `0..k` — a
running merge whose `ab` equals the prefix sum of the per-period `ab`s and
is non-decreasing in `k` whenever the input rows' `ab`s are nonnegative.
The bucket's own `ab` field, however, carries the per-period snapshot value
(the `...periodStats` spread), not the cumulative one. -/
theorem C2_cumulative_batting_trend (rows : List BatRow) (pid : String)
    (tp : TrendPeriod) (k : ℕ)
    (hk : k < (playerGroupsB rows pid tp).length)
    (hk2 : k < (playerBattingTrendData rows pid tp).length) :
    ((playerBattingTrendData rows pid tp).get ⟨k, hk2⟩).avg =
      jsToFixed 3 (safeDiv (cumBatPS (playerGroupsB rows pid tp) k).h
        (cumBatPS (playerGroupsB rows pid tp) k).ab) ∧
    ((playerBattingTrendData rows pid tp).get ⟨k, hk2⟩).obp =
      jsToFixed 3 (safeDiv
        ((cumBatPS (playerGroupsB rows pid tp) k).h +
          (cumBatPS (playerGroupsB rows pid tp) k).bb +
          (cumBatPS (playerGroupsB rows pid tp) k).hbp)
        ((cumBatPS (playerGroupsB rows pid tp) k).ab +
          (cumBatPS (playerGroupsB rows pid tp) k).bb +
          (cumBatPS (playerGroupsB rows pid tp) k).hbp +
          (cumBatPS (playerGroupsB rows pid tp) k).sf)) ∧
    ((playerBattingTrendData rows pid tp).get ⟨k, hk2⟩).ops =
      jsToFixed 3 (safeDiv
        ((cumBatPS (playerGroupsB rows pid tp) k).h +
          (cumBatPS (playerGroupsB rows pid tp) k).bb +
          (cumBatPS (playerGroupsB rows pid tp) k).hbp)
        ((cumBatPS (playerGroupsB rows pid tp) k).ab +
          (cumBatPS (playerGroupsB rows pid tp) k).bb +
          (cumBatPS (playerGroupsB rows pid tp) k).hbp +
          (cumBatPS (playerGroupsB rows pid tp) k).sf) +
        safeDiv
          (((cumBatPS (playerGroupsB rows pid tp) k).h -
              (cumBatPS (playerGroupsB rows pid tp) k).doubles -
              (cumBatPS (playerGroupsB rows pid tp) k).triples -
              (cumBatPS (playerGroupsB rows pid tp) k).hr) +
            (cumBatPS (playerGroupsB rows pid tp) k).doubles * 2 +
            (cumBatPS (playerGroupsB rows pid tp) k).triples * 3 +
            (cumBatPS (playerGroupsB rows pid tp) k).hr * 4)
          (cumBatPS (playerGroupsB rows pid tp) k).ab) ∧
    ((playerBattingTrendData rows pid tp).get ⟨k, hk2⟩).ab =
      (sumBatPS ((playerGroupsB rows pid tp).get ⟨k, hk⟩).2).ab ∧
    (cumBatPS (playerGroupsB rows pid tp) k).ab =
      (((playerGroupsB rows pid tp).take (k + 1)).map
        fun g => (sumBatPS g.2).ab).sum ∧
    ((∀ r ∈ rows, (0 : ℚ) ≤ r.ab) → ∀ j, j ≤ k →
      (cumBatPS (playerGroupsB rows pid tp) j).ab ≤
        (cumBatPS (playerGroupsB rows pid tp) k).ab) := by
  have hpt : (playerBattingTrendData rows pid tp).get ⟨k, hk2⟩ =
      mkPlayerBatPoint ((playerGroupsB rows pid tp).get ⟨k, hk⟩).1
        ((playerGroupsB rows pid tp).get ⟨k, hk⟩).2
        (sumBatPS ((playerGroupsB rows pid tp).get ⟨k, hk⟩).2)
        (cumBatPS (playerGroupsB rows pid tp) k) tp :=
    buildBatTrend_get tp (playerGroupsB rows pid tp) zeroBatPS k hk hk2
  refine ⟨?_, ?_, ?_, ?_, cumBatPS_ab_sum _ k,
    fun hab j hj => cumBatPS_ab_mono rows pid tp hab j k hj⟩ <;>
    · rw [hpt]
      simp [mkPlayerBatPoint]

/-- Rows of the C2/C10 concrete trend instances: two months, `ab = 3` then
`ab = 2`. -/
def cB1 : BatRow := { blankBatRow with name := "p1", date := "2025-04-05", ab := 3, h := 2 }

/-- Second sample row for the C2 concrete instances. -/
def cB2 : BatRow := { blankBatRow with name := "p1", date := "2025-05-06", ab := 2 }

/-- Counterexample to C2 as stated: over the two months the buckets carry
`ab = 3` then `ab = 2` — the AB value carried by the second bucket
decreases and does not equal the prefix sum `3 + 2`. -/
theorem C2_counterexample :
    (playerBattingTrendData [cB1, cB2] "p1" .monthly).map (fun b => b.ab) =
      [3, 2] ∧ ¬ ((3 : ℚ) ≤ 2) ∧ ((2 : ℚ) ≠ 3 + 2) := by
  refine ⟨?_, by norm_num, by norm_num⟩
  norm_num [playerBattingTrendData, playerGroupsB, buildBatTrend, batPid,
    mkPlayerBatPoint, sumBatPS, zeroBatPS, addBatPS, jsToFixed, safeDiv,
    List.insertionSort, List.orderedInsert, List.dedup, cB1, cB2, blankBatRow,
    (by decide : playerGetKey "2025-04-05" TrendPeriod.monthly = "2025-04"),
    (by decide : playerGetKey "2025-05-06" TrendPeriod.monthly = "2025-05"),
    (by decide : ¬ (("2025-04" : String) = "2025-05")),
    (by decide : ¬ (("2025-05" : String) = "2025-04")),
    (by decide : strLe "2025-04" "2025-05" = true)]

/-- Group count of the C2 concrete instance. -/
lemma C2groups_length :
    (playerGroupsB [cB1, cB2] "p1" .monthly).length = 2 := by
  simp [playerGroupsB, batPid, List.insertionSort, List.orderedInsert,
    List.dedup, cB1, cB2, blankBatRow,
    (by decide : playerGetKey "2025-04-05" TrendPeriod.monthly = "2025-04"),
    (by decide : playerGetKey "2025-05-06" TrendPeriod.monthly = "2025-05"),
    (by decide : ¬ (("2025-04" : String) = "2025-05")),
    (by decide : ¬ (("2025-05" : String) = "2025-04")),
    (by decide : strLe "2025-04" "2025-05" = true)]

/-- Index bound on the groups of the C2 concrete instance. -/
lemma C2hk : 1 < (playerGroupsB [cB1, cB2] "p1" .monthly).length := by
  rw [C2groups_length]; omega

/-- Index bound on the trend of the C2 concrete instance. -/
lemma C2hk2 : 1 < (playerBattingTrendData [cB1, cB2] "p1" .monthly).length := by
  show 1 < (buildBatTrend .monthly zeroBatPS
    (playerGroupsB [cB1, cB2] "p1" .monthly)).length
  rw [buildBatTrend_length, C2groups_length]; omega

/-- Witness for the amended C2 at the two-month sample. -/
theorem C2_cumulative_batting_trend_witness :
    ((playerBattingTrendData [cB1, cB2] "p1" .monthly).get ⟨1, C2hk2⟩).avg =
      jsToFixed 3 (safeDiv (cumBatPS (playerGroupsB [cB1, cB2] "p1" .monthly) 1).h
        (cumBatPS (playerGroupsB [cB1, cB2] "p1" .monthly) 1).ab) ∧
    ((playerBattingTrendData [cB1, cB2] "p1" .monthly).get ⟨1, C2hk2⟩).ab =
      (sumBatPS ((playerGroupsB [cB1, cB2] "p1" .monthly).get ⟨1, C2hk⟩).2).ab ∧
    (cumBatPS (playerGroupsB [cB1, cB2] "p1" .monthly) 0).ab ≤
      (cumBatPS (playerGroupsB [cB1, cB2] "p1" .monthly) 1).ab :=
  ⟨(C2_cumulative_batting_trend [cB1, cB2] "p1" .monthly 1 C2hk C2hk2).1,
    (C2_cumulative_batting_trend [cB1, cB2] "p1" .monthly 1 C2hk C2hk2).2.2.2.1,
    (C2_cumulative_batting_trend [cB1, cB2] "p1" .monthly 1 C2hk C2hk2).2.2.2.2.2
      (by
        intro r hr
        rcases List.mem_cons.mp hr with rfl | hr2
        · norm_num [cB1, blankBatRow]
        · rcases List.mem_singleton.mp hr2 with rfl
          norm_num [cB2, blankBatRow])
      0 (by omega)⟩

/-- C10: in a player's cumulative pitching trend, each bucket's `era`,
`whip`, `kbb`, `kPer7` and `bbPer7` are computed from the cumulative totals
through that period (a running merge of `outs`, `er`, `bb`, `hbp`, `h`,
`so` only — `pitches` and `strikes` never enter the accumulator), while the
same bucket's `innings`, `strikeRate`, `bb`, `hbp` and `pitches` fields
come from that period's own rows alone: one bucket mixes cumulative-mode
and snapshot-mode values. -/
theorem C10_mixed_mode_pitching_trend (rows : List PitchRow) (pid : String)
    (tp : TrendPeriod) (k : ℕ)
    (hk : k < (playerGroupsP rows pid tp).length)
    (hk2 : k < (playerPitchingTrendData rows pid tp).length) :
    ((playerPitchingTrendData rows pid tp).get ⟨k, hk2⟩).era =
      jsToFixed 2 (safeDiv ((cumPitchPS (playerGroupsP rows pid tp) k).er * 7)
        ((cumPitchPS (playerGroupsP rows pid tp) k).outs / 3)) ∧
    ((playerPitchingTrendData rows pid tp).get ⟨k, hk2⟩).whip =
      jsToFixed 2 (safeDiv
        ((cumPitchPS (playerGroupsP rows pid tp) k).bb +
          (cumPitchPS (playerGroupsP rows pid tp) k).hbp +
          (cumPitchPS (playerGroupsP rows pid tp) k).h)
        ((cumPitchPS (playerGroupsP rows pid tp) k).outs / 3)) ∧
    ((playerPitchingTrendData rows pid tp).get ⟨k, hk2⟩).kbb =
      jsToFixed 2 (safeDiv (cumPitchPS (playerGroupsP rows pid tp) k).so
        (cumPitchPS (playerGroupsP rows pid tp) k).bb) ∧
    ((playerPitchingTrendData rows pid tp).get ⟨k, hk2⟩).kPer7 =
      jsToFixed 2 (safeDiv ((cumPitchPS (playerGroupsP rows pid tp) k).so * 7)
        ((cumPitchPS (playerGroupsP rows pid tp) k).outs / 3)) ∧
    ((playerPitchingTrendData rows pid tp).get ⟨k, hk2⟩).bbPer7 =
      jsToFixed 2 (safeDiv
        (((cumPitchPS (playerGroupsP rows pid tp) k).bb +
          (cumPitchPS (playerGroupsP rows pid tp) k).hbp) * 7)
        ((cumPitchPS (playerGroupsP rows pid tp) k).outs / 3)) ∧
    ((playerPitchingTrendData rows pid tp).get ⟨k, hk2⟩).innings =
      jsToFixed 1
        ((sumPitchPS ((playerGroupsP rows pid tp).get ⟨k, hk⟩).2).outs / 3) ∧
    ((playerPitchingTrendData rows pid tp).get ⟨k, hk2⟩).strikeRate =
      jsToFixed 1 (safeDiv
        (sumPitchPS ((playerGroupsP rows pid tp).get ⟨k, hk⟩).2).strikes
        (sumPitchPS ((playerGroupsP rows pid tp).get ⟨k, hk⟩).2).pitches * 100) ∧
    ((playerPitchingTrendData rows pid tp).get ⟨k, hk2⟩).bb =
      (sumPitchPS ((playerGroupsP rows pid tp).get ⟨k, hk⟩).2).bb ∧
    ((playerPitchingTrendData rows pid tp).get ⟨k, hk2⟩).hbp =
      (sumPitchPS ((playerGroupsP rows pid tp).get ⟨k, hk⟩).2).hbp ∧
    ((playerPitchingTrendData rows pid tp).get ⟨k, hk2⟩).pitches =
      (sumPitchPS ((playerGroupsP rows pid tp).get ⟨k, hk⟩).2).pitches := by
  have hpt : (playerPitchingTrendData rows pid tp).get ⟨k, hk2⟩ =
      mkPlayerPitchPoint ((playerGroupsP rows pid tp).get ⟨k, hk⟩).1
        ((playerGroupsP rows pid tp).get ⟨k, hk⟩).2
        (sumPitchPS ((playerGroupsP rows pid tp).get ⟨k, hk⟩).2)
        (cumPitchPS (playerGroupsP rows pid tp) k) tp :=
    buildPitchTrend_get tp (playerGroupsP rows pid tp) zeroPitchCum k hk hk2
  refine ⟨?_, ?_, ?_, ?_, ?_, ?_, ?_, ?_, ?_, ?_⟩ <;>
    · rw [hpt]
      simp [mkPlayerPitchPoint]

/-- First sample row for the C10 concrete instance. -/
def cP1 : PitchRow :=
  { blankPitchRow with
    name := "p1", date := "2025-04-05", outs := 3, er := 1
    pitches := 10, strikes := 6 }

/-- Second sample row for the C10 concrete instance. -/
def cP2 : PitchRow :=
  { blankPitchRow with
    name := "p1", date := "2025-05-06", outs := 3, er := 2
    pitches := 20, strikes := 8 }

/-- Group count of the C10 concrete instance. -/
lemma C10groups_length :
    (playerGroupsP [cP1, cP2] "p1" .monthly).length = 2 := by
  simp [playerGroupsP, pitchPid, List.insertionSort, List.orderedInsert,
    List.dedup, cP1, cP2, blankPitchRow,
    (by decide : playerGetKey "2025-04-05" TrendPeriod.monthly = "2025-04"),
    (by decide : playerGetKey "2025-05-06" TrendPeriod.monthly = "2025-05"),
    (by decide : ¬ (("2025-04" : String) = "2025-05")),
    (by decide : ¬ (("2025-05" : String) = "2025-04")),
    (by decide : strLe "2025-04" "2025-05" = true)]

/-- Index bound on the groups of the C10 concrete instance. -/
lemma C10hk : 1 < (playerGroupsP [cP1, cP2] "p1" .monthly).length := by
  rw [C10groups_length]; omega

/-- Index bound on the trend of the C10 concrete instance. -/
lemma C10hk2 : 1 < (playerPitchingTrendData [cP1, cP2] "p1" .monthly).length := by
  show 1 < (buildPitchTrend .monthly zeroPitchCum
    (playerGroupsP [cP1, cP2] "p1" .monthly)).length
  rw [buildPitchTrend_length, C10groups_length]; omega

/-- Witness for C10 at the two-month sample: cumulative `era` next to a
snapshot `pitches`. -/
theorem C10_mixed_mode_pitching_trend_witness :
    ((playerPitchingTrendData [cP1, cP2] "p1" .monthly).get ⟨1, C10hk2⟩).era =
      jsToFixed 2
        (safeDiv ((cumPitchPS (playerGroupsP [cP1, cP2] "p1" .monthly) 1).er * 7)
          ((cumPitchPS (playerGroupsP [cP1, cP2] "p1" .monthly) 1).outs / 3)) ∧
    ((playerPitchingTrendData [cP1, cP2] "p1" .monthly).get ⟨1, C10hk2⟩).pitches =
      (sumPitchPS ((playerGroupsP [cP1, cP2] "p1" .monthly).get ⟨1, C10hk⟩).2).pitches :=
  ⟨(C10_mixed_mode_pitching_trend [cP1, cP2] "p1" .monthly 1 C10hk C10hk2).1,
    (C10_mixed_mode_pitching_trend [cP1, cP2] "p1" .monthly 1 C10hk
      C10hk2).2.2.2.2.2.2.2.2.2⟩

/-! ## Ranking comparator lemmas (C8) -/

/-- The ascending comparator is transitive. -/
lemma ascLE_trans (a b c : Option ℚ) (h1 : ascLE a b = true)
    (h2 : ascLE b c = true) : ascLE a c = true := by
  cases a <;> cases b <;> cases c <;> simp_all [ascLE]
  linarith

/-- The ascending comparator is total. -/
lemma ascLE_total (a b : Option ℚ) : ascLE a b = true ∨ ascLE b a = true := by
  cases a <;> cases b <;> simp [ascLE]
  exact le_total _ _

/-- The descending comparator is transitive. -/
lemma descLE_trans (a b c : Option ℚ) (h1 : descLE a b = true)
    (h2 : descLE b c = true) : descLE a c = true := by
  cases a <;> cases b <;> cases c <;> simp_all [descLE]
  linarith

/-- The descending comparator is total. -/
lemma descLE_total (a b : Option ℚ) : descLE a b = true ∨ descLE b a = true := by
  cases a <;> cases b <;> simp [descLE]
  exact le_total _ _

/-- Sample pitcher with `era = 2.50` for the C8 concrete instance. -/
def eraRow1 : PitchRow :=
  { blankPitchRow with name := "P1", er := 5, outs := 42 }

/-- Sample pitcher with `era = 3.00` for the C8 concrete instance. -/
def eraRow2 : PitchRow :=
  { blankPitchRow with name := "P2", er := 6, outs := 42 }

/-- Sample batter with `hr = 10` for the C8 concrete instance. -/
def hrRow1 : BatRow := { blankBatRow with name := "B1", hr := 10 }

/-- Sample batter with `hr = 5` for the C8 concrete instance. -/
def hrRow2 : BatRow := { blankBatRow with name := "B2", hr := 5 }

/-- C8: ranking output for the lower-is-better metrics `era` and `whip` is
sorted by the ascending comparator and for every other metric by the
descending comparator; both comparators send a missing (`undefined`) value
to the worst position (`+∞` ascending, `-∞` descending).  Concretely, for
metric `era` the pitcher with `era = 2.50` ranks before the one with
`era = 3.00`, and for metric `hr` the batter with `hr = 10` ranks before
the one with `hr = 5`. -/
theorem C8_ranking_direction :
    (∀ (batS : List BatSummary) (pitchS : List PitchSummary) (dt : DataType)
      (m : Metric) (minPA : ℚ), (m = .era ∨ m = .whip) →
      List.Sorted (fun a b : RankEntry => ascLE a.value b.value = true)
        (rankingData batS pitchS dt m minPA)) ∧
    (∀ (batS : List BatSummary) (pitchS : List PitchSummary) (dt : DataType)
      (m : Metric) (minPA : ℚ), ¬ (m = .era ∨ m = .whip) →
      List.Sorted (fun a b : RankEntry => descLE a.value b.value = true)
        (rankingData batS pitchS dt m minPA)) ∧
    (∀ q : ℚ, ascLE (some q) none = true ∧ ascLE none (some q) = false ∧
      descLE (some q) none = true ∧ descLE none (some q) = false) ∧
    (rankingData [] (aggregatedPitching [eraRow1, eraRow2]) .pitching .era 0).map
      (fun e => (e.name, e.value)) = [("P1", some (5/2)), ("P2", some 3)] ∧
    (rankingData (aggregatedBatting [hrRow1, hrRow2]) [] .batting .hr 0).map
      (fun e => (e.name, e.value)) = [("B1", some 10), ("B2", some 5)] := by
  haveI instTransAsc :
      IsTrans RankEntry (fun a b => ascLE a.value b.value = true) :=
    ⟨fun a b c => ascLE_trans a.value b.value c.value⟩
  haveI instTotalAsc :
      IsTotal RankEntry (fun a b => ascLE a.value b.value = true) :=
    ⟨fun a b => ascLE_total a.value b.value⟩
  haveI instTransDesc :
      IsTrans RankEntry (fun a b => descLE a.value b.value = true) :=
    ⟨fun a b c => descLE_trans a.value b.value c.value⟩
  haveI instTotalDesc :
      IsTotal RankEntry (fun a b => descLE a.value b.value = true) :=
    ⟨fun a b => descLE_total a.value b.value⟩
  refine ⟨fun batS pitchS dt m minPA hm => ?_,
    fun batS pitchS dt m minPA hm => ?_,
    fun q => by simp [ascLE, descLE], ?_, ?_⟩
  · simp only [rankingData]
    rw [if_pos hm]
    exact List.sorted_insertionSort _ _
  · simp only [rankingData]
    rw [if_neg hm]
    exact List.sorted_insertionSort _ _
  · norm_num [rankingData, aggregatedPitching, aggPitchRows, finalizePitch,
      initPitchAcc, addPitchRow, pitchPid, pitchMetricVal, jsToFixed, safeDiv,
      List.insertionSort, List.orderedInsert, ascLE, eraRow1, eraRow2,
      blankPitchRow, decide_eq_true_eq,
      (by decide : ¬ (("P2" : String) = "P1")),
      (by decide : ¬ (Metric.era = Metric.displayInnings))]
  · norm_num [rankingData, aggregatedBatting, aggBatRows, finalizeBat,
      initBatAcc, addBatRow, batPid, batMetricVal, jsToFixed, safeDiv,
      List.insertionSort, List.orderedInsert, descLE, hrRow1, hrRow2,
      blankBatRow, decide_eq_true_eq,
      (by decide : ¬ (("B2" : String) = "B1")),
      (by decide : ¬ (Metric.hr = Metric.era ∨ Metric.hr = Metric.whip))]

/-- Witness for C8: the sort-direction statements applied at the concrete
era/hr inputs. -/
theorem C8_ranking_direction_witness :
    List.Sorted (fun a b : RankEntry => ascLE a.value b.value = true)
      (rankingData [] (aggregatedPitching [eraRow1, eraRow2]) .pitching .era 0) ∧
    List.Sorted (fun a b : RankEntry => descLE a.value b.value = true)
      (rankingData (aggregatedBatting [hrRow1, hrRow2]) [] .batting .hr 0) :=
  ⟨C8_ranking_direction.1 [] (aggregatedPitching [eraRow1, eraRow2]) .pitching
      .era 0 (Or.inl rfl),
    C8_ranking_direction.2.1 (aggregatedBatting [hrRow1, hrRow2]) [] .batting
      .hr 0 (by simp)⟩

/-! ## Game-outcome lemmas (C6, C9) -/

/-- Total `得点` over the batting rows with game id `g`. -/
def runsFor (rows : List BatRow) (g : String) : ℚ :=
  ((rows.filter fun r => r.gameId = g).map fun r => r.runs).sum

/-- Total `失点` over the pitching rows with game id `g`. -/
def allowedFor (rows : List PitchRow) (g : String) : ℚ :=
  ((rows.filter fun r => r.gameId = g).map fun r => r.r).sum

/-- Peeling one batting row off `runsFor`. -/
lemma runsFor_cons (r : BatRow) (rest : List BatRow) (g : String) :
    runsFor (r :: rest) g =
      (if r.gameId = g then r.runs else 0) + runsFor rest g := by
  by_cases h : r.gameId = g <;> simp [runsFor, List.filter_cons, h]

/-- Peeling one pitching row off `allowedFor`. -/
lemma allowedFor_cons (r : PitchRow) (rest : List PitchRow) (g : String) :
    allowedFor (r :: rest) g =
      (if r.gameId = g then r.r else 0) + allowedFor rest g := by
  by_cases h : r.gameId = g <;> simp [allowedFor, List.filter_cons, h]

/-- A `runsScored` update does not change the identity fields. -/
lemma batUpd_id (g : GameAcc) (q : ℚ) :
    ({ g with runsScored := q } : GameAcc).id = g.id := rfl

/-- Membership in one `batGameStep`: each produced entry either updates an
existing entry by the row's runs (when the ids match) or is the freshly
created entry for a first-seen non-empty game id. -/
lemma batGameStep_mem (acc : List GameAcc) (r : BatRow)
    (hacc : ∀ e0 ∈ acc, e0.id ≠ "") (e : GameAcc)
    (he : e ∈ batGameStep acc r) :
    (∃ e0 ∈ acc, e.id = e0.id ∧ e.runsAllowed = e0.runsAllowed ∧
      e.runsScored = e0.runsScored + (if r.gameId = e0.id then r.runs else 0)) ∨
    ((∀ e0 ∈ acc, e0.id ≠ r.gameId) ∧ r.gameId ≠ "" ∧ e.id = r.gameId ∧
      e.runsAllowed = 0 ∧ e.runsScored = r.runs) := by
  unfold batGameStep at he
  by_cases hid : r.gameId = ""
  · rw [if_pos hid] at he
    refine Or.inl ⟨e, he, rfl, rfl, ?_⟩
    have hc : ¬ (r.gameId = e.id) := by
      rw [hid]
      exact fun h => hacc e he h.symm
    simp [hc]
  · rw [if_neg hid] at he
    rw [List.mem_map] at he
    obtain ⟨g0, hg0, rfl⟩ := he
    by_cases hany : acc.any (fun g => g.id = r.gameId)
    · rw [if_pos hany] at hg0
      by_cases hc : g0.id = r.gameId
      · exact Or.inl ⟨g0, hg0, by simp [hc], by simp [hc], by simp [hc]⟩
      · have hcs : ¬ (r.gameId = g0.id) := fun h => hc h.symm
        exact Or.inl ⟨g0, hg0, by simp [hc], by simp [hc], by simp [hc, hcs]⟩
    · rw [if_neg hany] at hg0
      rw [List.mem_append] at hg0
      have hnot : ∀ e0 ∈ acc, e0.id ≠ r.gameId := by
        intro e0 he0
        intro hq
        exact hany (List.any_eq_true.mpr ⟨e0, he0, by simpa using hq⟩)
      rcases hg0 with hg0 | hg0
      · have hc : ¬ (g0.id = r.gameId) := hnot g0 hg0
        have hcs : ¬ (r.gameId = g0.id) := fun h => hc h.symm
        exact Or.inl ⟨g0, hg0, by simp [hc], by simp [hc], by simp [hc, hcs]⟩
      · rw [List.mem_singleton] at hg0
        subst hg0
        refine Or.inr ⟨hnot, hid, ?_, ?_, ?_⟩ <;>
          simp [initGame]

/-- `batGameStep` preserves non-emptiness of the stored game ids. -/
lemma batGameStep_ids_ne (acc : List GameAcc) (r : BatRow)
    (hacc : ∀ e0 ∈ acc, e0.id ≠ "") :
    ∀ e ∈ batGameStep acc r, e.id ≠ "" := by
  intro e he
  rcases batGameStep_mem acc r hacc e he with
    ⟨e0, he0, hid, -, -⟩ | ⟨-, hid, hed, -, -⟩
  · rw [hid]; exact hacc e0 he0
  · rw [hed]; exact hid

/-- `batGameStep` keeps every game id that was already present. -/
lemma batGameStep_ids_mono (acc : List GameAcc) (r : BatRow) (g : String)
    (h : ∃ e0 ∈ acc, e0.id = g) : ∃ e ∈ batGameStep acc r, e.id = g := by
  obtain ⟨e0, he0, rfl⟩ := h
  unfold batGameStep
  by_cases hid : r.gameId = ""
  · rw [if_pos hid]; exact ⟨e0, he0, rfl⟩
  · rw [if_neg hid]
    by_cases hany : acc.any (fun g => g.id = r.gameId)
    · rw [if_pos hany]
      by_cases hc : e0.id = r.gameId
      · exact ⟨_, List.mem_map.mpr ⟨e0, he0, rfl⟩, by simp [hc]⟩
      · exact ⟨_, List.mem_map.mpr ⟨e0, he0, rfl⟩, by simp [hc]⟩
    · rw [if_neg hany]
      by_cases hc : e0.id = r.gameId
      · exact ⟨_, List.mem_map.mpr ⟨e0, List.mem_append_left _ he0, rfl⟩,
          by simp [hc]⟩
      · exact ⟨_, List.mem_map.mpr ⟨e0, List.mem_append_left _ he0, rfl⟩,
          by simp [hc]⟩

/-- After a step on row `r` with a non-empty game id, an entry for that id
exists. -/
lemma batGameStep_has (acc : List GameAcc) (r : BatRow)
    (hid : r.gameId ≠ "") : ∃ e ∈ batGameStep acc r, e.id = r.gameId := by
  unfold batGameStep
  rw [if_neg hid]
  by_cases hany : acc.any (fun g => g.id = r.gameId)
  · rw [if_pos hany]
    obtain ⟨e0, he0, hc⟩ := List.any_eq_true.mp hany
    rw [decide_eq_true_eq] at hc
    exact ⟨_, List.mem_map.mpr ⟨e0, he0, rfl⟩, by simp [hc]⟩
  · rw [if_neg hany]
    refine ⟨_, List.mem_map.mpr ⟨initGame r,
      List.mem_append_right _ (List.mem_singleton.mpr rfl), rfl⟩, ?_⟩
    simp [initGame]

/-- Main invariant of the first pass: every entry produced by folding
`batGameStep` over `rows` from `acc` either extends an entry of `acc` by
the runs of the rows sharing its id, or is a fresh entry (id not in `acc`,
non-empty, `runsAllowed = 0`) whose `runsScored` is exactly the sum of the
runs of the rows sharing its id. -/
lemma foldl_batGameStep_spec :
    ∀ (rows : List BatRow) (acc : List GameAcc),
      (∀ e0 ∈ acc, e0.id ≠ "") →
      ∀ e ∈ rows.foldl batGameStep acc,
        (∃ e0 ∈ acc, e.id = e0.id ∧ e.runsAllowed = e0.runsAllowed ∧
          e.runsScored = e0.runsScored + runsFor rows e0.id) ∨
        ((∀ e0 ∈ acc, e0.id ≠ e.id) ∧ e.id ≠ "" ∧ e.runsAllowed = 0 ∧
          e.runsScored = runsFor rows e.id) := by
  intro rows
  induction rows with
  | nil =>
      intro acc hacc e he
      exact Or.inl ⟨e, by simpa using he, rfl, rfl, by simp [runsFor]⟩
  | cons r rest ih =>
      intro acc hacc e he
      rw [List.foldl_cons] at he
      have hacc' : ∀ e0 ∈ batGameStep acc r, e0.id ≠ "" :=
        batGameStep_ids_ne acc r hacc
      rcases ih (batGameStep acc r) hacc' e he with
        ⟨e1, he1, hid1, hra1, hrs1⟩ | ⟨hnot1, hne1, hra1, hrs1⟩
      · rcases batGameStep_mem acc r hacc e1 he1 with
          ⟨e0, he0, hid0, hra0, hrs0⟩ | ⟨hnot0, hne0, hid0, hra0, hrs0⟩
        · refine Or.inl ⟨e0, he0, hid1.trans hid0, hra1.trans hra0, ?_⟩
          rw [hrs1, hrs0, hid0, runsFor_cons]
          ring
        · refine Or.inr ⟨?_, ?_, hra1.trans hra0, ?_⟩
          · intro e0 he0
            rw [hid1, hid0]
            exact hnot0 e0 he0
          · rw [hid1, hid0]; exact hne0
          · rw [hrs1, hrs0, hid1, hid0, runsFor_cons, if_pos rfl]
      · refine Or.inr ⟨?_, hne1, hra1, ?_⟩
        · intro e0 he0 hq
          obtain ⟨e1, he1, hide1⟩ :=
            batGameStep_ids_mono acc r e.id ⟨e0, he0, hq⟩
          exact hnot1 e1 he1 hide1
        · have hrg : ¬ (r.gameId = e.id) := by
            intro hq
            obtain ⟨e1, he1, hide1⟩ :=
              batGameStep_has acc r (by rw [hq]; exact hne1)
            exact hnot1 e1 he1 (by rw [hide1, hq])
          rw [hrs1, runsFor_cons, if_neg hrg, zero_add]

/-- Which game ids exist after one `batGameStep`. -/
lemma batGameStep_ids_iff (acc : List GameAcc) (r : BatRow)
    (hacc : ∀ e0 ∈ acc, e0.id ≠ "") (g : String) :
    (∃ e ∈ batGameStep acc r, e.id = g) ↔
      (∃ e0 ∈ acc, e0.id = g) ∨ (g ≠ "" ∧ r.gameId = g) := by
  constructor
  · rintro ⟨e, he, rfl⟩
    rcases batGameStep_mem acc r hacc e he with
      ⟨e0, he0, hid, -, -⟩ | ⟨-, hne, hid, -, -⟩
    · exact Or.inl ⟨e0, he0, hid.symm⟩
    · exact Or.inr ⟨by rw [hid]; exact hne, hid.symm⟩
  · rintro (⟨e0, he0, rfl⟩ | ⟨hgne, rfl⟩)
    · exact batGameStep_ids_mono acc r e0.id ⟨e0, he0, rfl⟩
    · exact batGameStep_has acc r hgne

/-- Which game ids exist after the whole first pass. -/
lemma foldl_batGameStep_ids :
    ∀ (rows : List BatRow) (acc : List GameAcc),
      (∀ e0 ∈ acc, e0.id ≠ "") → ∀ g : String,
      (∃ e ∈ rows.foldl batGameStep acc, e.id = g) ↔
        (∃ e0 ∈ acc, e0.id = g) ∨ (g ≠ "" ∧ ∃ r ∈ rows, r.gameId = g) := by
  intro rows
  induction rows with
  | nil => intro acc hacc g; simp
  | cons r rest ih =>
      intro acc hacc g
      rw [List.foldl_cons,
        ih (batGameStep acc r) (batGameStep_ids_ne acc r hacc) g,
        batGameStep_ids_iff acc r hacc g]
      constructor
      · rintro ((h | ⟨h1, h2⟩) | ⟨h1, rr, hrr, h2⟩)
        · exact Or.inl h
        · exact Or.inr ⟨h1, r, List.mem_cons_self r rest, h2⟩
        · exact Or.inr ⟨h1, rr, List.mem_cons_of_mem r hrr, h2⟩
      · rintro (h | ⟨h1, rr, hrr, h2⟩)
        · exact Or.inl (Or.inl h)
        · rcases List.mem_cons.mp hrr with rfl | hrr2
          · exact Or.inl (Or.inr ⟨h1, h2⟩)
          · exact Or.inr ⟨h1, rr, hrr2, h2⟩

/-- One `batGameStep` keeps the stored game ids duplicate-free. -/
lemma batGameStep_ids_nodup (acc : List GameAcc) (r : BatRow)
    (h : (acc.map fun e => e.id).Nodup) :
    ((batGameStep acc r).map fun e => e.id).Nodup := by
  unfold batGameStep
  by_cases hid : r.gameId = ""
  · rw [if_pos hid]; exact h
  · rw [if_neg hid]
    have hupd : ∀ l : List GameAcc,
        ((l.map fun g =>
          if g.id = r.gameId then { g with runsScored := g.runsScored + r.runs }
          else g).map fun e => e.id) = l.map fun e => e.id := by
      intro l
      rw [List.map_map]
      apply List.map_congr_left
      intro g hg
      by_cases hc : g.id = r.gameId <;> simp [hc]
    by_cases hany : acc.any (fun g => g.id = r.gameId)
    · rw [if_pos hany, hupd]; exact h
    · rw [if_neg hany, hupd, List.map_append]
      rw [List.nodup_append]
      refine ⟨h, by simp, ?_⟩
      intro g hg hg2
      simp only [List.map_cons, List.map_nil, List.mem_singleton] at hg2
      rw [List.mem_map] at hg
      obtain ⟨e0, he0, rfl⟩ := hg
      rw [show (initGame r).id = r.gameId from rfl] at hg2
      exact hany (List.any_eq_true.mpr ⟨e0, he0, by simpa using hg2⟩)

/-- The whole first pass keeps the stored game ids duplicate-free. -/
lemma foldl_batGameStep_nodup :
    ∀ (rows : List BatRow) (acc : List GameAcc),
      (acc.map fun e => e.id).Nodup →
      ((rows.foldl batGameStep acc).map fun e => e.id).Nodup := by
  intro rows
  induction rows with
  | nil => intro acc h; simpa using h
  | cons r rest ih =>
      intro acc h
      rw [List.foldl_cons]
      exact ih (batGameStep acc r) (batGameStep_ids_nodup acc r h)

/-- Field values of the first pass from the empty map: non-empty id, zero
runs allowed, and runs scored summed over the rows sharing the id. -/
lemma gamesFromBatting_spec (bat : List BatRow) :
    ∀ e ∈ gamesFromBatting bat,
      e.id ≠ "" ∧ e.runsAllowed = 0 ∧ e.runsScored = runsFor bat e.id := by
  intro e he
  rcases foldl_batGameStep_spec bat [] (by simp) e he with
    ⟨e0, he0, -⟩ | ⟨-, h1, h2, h3⟩
  · exact absurd he0 (List.not_mem_nil e0)
  · exact ⟨h1, h2, h3⟩

/-- Game ids of the first pass from the empty map. -/
lemma gamesFromBatting_ids (bat : List BatRow) (g : String) :
    (∃ e ∈ gamesFromBatting bat, e.id = g) ↔
      (g ≠ "" ∧ ∃ r ∈ bat, r.gameId = g) := by
  rw [gamesFromBatting, foldl_batGameStep_ids bat [] (by simp) g]
  simp

/-- The first pass produces duplicate-free game ids. -/
lemma gamesFromBatting_nodup (bat : List BatRow) :
    ((gamesFromBatting bat).map fun e => e.id).Nodup :=
  foldl_batGameStep_nodup bat [] (by simp)

/-- Adding zero runs allowed is the identity. -/
lemma gameAcc_ra_zero_add (e : GameAcc) :
    ({ e with runsAllowed := e.runsAllowed + 0 } : GameAcc) = e := by
  cases e; simp

/-- Closed form of one second-pass step: every entry's `runsAllowed` grows
by the row's `失点` exactly when the ids match. -/
lemma pitchGameStep_eq (acc : List GameAcc) (r : PitchRow) :
    pitchGameStep acc r = acc.map fun e =>
      { e with runsAllowed := e.runsAllowed + (if r.gameId = e.id then r.r else 0) } := by
  unfold pitchGameStep
  by_cases hany : acc.any (fun g => g.id = r.gameId)
  · rw [if_pos hany]
    apply List.map_congr_left
    intro e he
    by_cases hc : e.id = r.gameId
    · simp [hc]
    · have hcs : ¬ (r.gameId = e.id) := fun h => hc h.symm
      simp [hc, hcs, gameAcc_ra_zero_add]
  · rw [if_neg hany]
    have hno : ∀ e ∈ acc, ¬ (r.gameId = e.id) := by
      intro e he hq
      exact hany (List.any_eq_true.mpr ⟨e, he, by simpa using hq.symm⟩)
    symm
    calc acc.map (fun e =>
          { e with runsAllowed := e.runsAllowed + (if r.gameId = e.id then r.r else 0) })
        = acc.map id := by
          apply List.map_congr_left
          intro e he
          simp [hno e he, gameAcc_ra_zero_add]
      _ = acc := List.map_id acc

/-- Closed form of the whole second pass. -/
lemma addRunsAllowed_eq :
    ∀ (rows : List PitchRow) (games : List GameAcc),
      addRunsAllowed games rows = games.map fun e =>
        { e with runsAllowed := e.runsAllowed + allowedFor rows e.id } := by
  intro rows
  induction rows with
  | nil =>
      intro games
      symm
      calc games.map (fun e =>
            { e with runsAllowed := e.runsAllowed + allowedFor [] e.id })
          = games.map id := by
            apply List.map_congr_left
            intro e he
            simp [allowedFor, gameAcc_ra_zero_add]
        _ = games := List.map_id games
  | cons r rest ih =>
      intro games
      have h1 : addRunsAllowed games (r :: rest) =
          addRunsAllowed (pitchGameStep games r) rest := by
        simp [addRunsAllowed]
      rw [h1, ih, pitchGameStep_eq, List.map_map]
      apply List.map_congr_left
      intro e he
      show ({ { e with runsAllowed := e.runsAllowed +
          (if r.gameId = e.id then r.r else 0) } with
        runsAllowed := (e.runsAllowed + (if r.gameId = e.id then r.r else 0)) +
          allowedFor rest e.id } : GameAcc) = _
      rw [allowedFor_cons]
      simp [add_assoc]

/-- Count of wins among a list of game entries, as a JS number. -/
def countW (l : List GameAcc) : ℚ :=
  (((l.filter fun g => classify g = "W").length : ℕ) : ℚ)

/-- Peeling one entry off `countW`. -/
lemma countW_cons (g : GameAcc) (t : List GameAcc) :
    countW (g :: t) = (if classify g = "W" then 1 else 0) + countW t := by
  by_cases h : classify g = "W" <;>
    simp [countW, List.filter_cons, h, add_comm]

/-- The walk emits one result per entry. -/
lemma walkGames_length :
    ∀ (l : List GameAcc) (w p : ℚ), (walkGames w p l).length = l.length := by
  intro l
  induction l with
  | nil => intro w p; simp [walkGames]
  | cons g rest ih => intro w p; simp [walkGames, ih]

/-- The walk preserves the game ids, in order. -/
lemma walkGames_ids :
    ∀ (l : List GameAcc) (w p : ℚ),
      (walkGames w p l).map (fun e => e.id) = l.map fun g => g.id := by
  intro l
  induction l with
  | nil => intro w p; simp [walkGames]
  | cons g rest ih => intro w p; simp [walkGames, ih]

/-- The walk preserves the dates, in order. -/
lemma walkGames_dates :
    ∀ (l : List GameAcc) (w p : ℚ),
      (walkGames w p l).map (fun e => e.date) = l.map fun g => g.date := by
  intro l
  induction l with
  | nil => intro w p; simp [walkGames]
  | cons g rest ih => intro w p; simp [walkGames, ih]

/-- Every walk result reflects some input entry: same identity and runs,
and the W/L/T classification of that entry. -/
lemma walkGames_mem :
    ∀ (l : List GameAcc) (w p : ℚ) (e : GameResult), e ∈ walkGames w p l →
      ∃ g0 ∈ l, e.id = g0.id ∧ e.runsScored = g0.runsScored ∧
        e.runsAllowed = g0.runsAllowed ∧ e.result = classify g0 := by
  intro l
  induction l with
  | nil => intro w p e he; simp [walkGames] at he
  | cons g rest ih =>
      intro w p e he
      rw [walkGames] at he
      rcases List.mem_cons.mp he with rfl | he2
      · exact ⟨g, List.mem_cons_self g rest, rfl, rfl, rfl, rfl⟩
      · obtain ⟨g0, hg0, hs⟩ := ih _ _ e he2
        exact ⟨g0, List.mem_cons_of_mem g hg0, hs⟩

/-- The `k`-th walk result in full: the entry's fields, its classification,
and the running win percentage over the first `k+1` entries, shifted by the
starting counters `w` and `p`. -/
lemma walkGames_get :
    ∀ (l : List GameAcc) (w p : ℚ) (k : ℕ) (hk : k < l.length)
      (hk2 : k < (walkGames w p l).length),
      (walkGames w p l).get ⟨k, hk2⟩ =
        { id := (l.get ⟨k, hk⟩).id, date := (l.get ⟨k, hk⟩).date
          opponent := (l.get ⟨k, hk⟩).opponent
          scoreText := (l.get ⟨k, hk⟩).scoreText
          runsScored := (l.get ⟨k, hk⟩).runsScored
          runsAllowed := (l.get ⟨k, hk⟩).runsAllowed
          result := classify (l.get ⟨k, hk⟩)
          winningPercentage := jsToFixed 3
            (safeDiv (w + countW (l.take (k + 1))) (p + ((k + 1 : ℕ) : ℚ)))
          label := gameLabel (l.get ⟨k, hk⟩) } := by
  intro l
  induction l with
  | nil => intro w p k hk; exact absurd hk (by simp)
  | cons g rest ih =>
      intro w p k hk hk2
      match k with
      | 0 =>
          have hw : (if classify g = "W" then w + 1 else w) =
              w + countW ((g :: rest).take 1) := by
            by_cases h : classify g = "W" <;>
              simp [h, countW, List.filter_cons]
          simp [walkGames, hw]
      | k + 1 =>
          have hk' : k < rest.length := by simpa using hk
          have hk2' : k < (walkGames
              (if classify g = "W" then w + 1 else w) (p + 1) rest).length := by
            rw [walkGames_length]; exact hk'
          have hstep :
              (walkGames w p (g :: rest)).get ⟨k + 1, hk2⟩ =
                (walkGames (if classify g = "W" then w + 1 else w) (p + 1)
                  rest).get ⟨k, hk2'⟩ := by
            simp [walkGames]
          rw [hstep, ih _ _ k hk' hk2']
          have hW : (if classify g = "W" then w + 1 else w) +
              countW (rest.take (k + 1)) =
              w + countW ((g :: rest).take (k + 1 + 1)) := by
            rw [List.take_succ_cons, countW_cons]
            by_cases h : classify g = "W" <;> simp [h, add_assoc]
          have hP : (p + 1) + ((k + 1 : ℕ) : ℚ) = p + ((k + 1 + 1 : ℕ) : ℚ) := by
            push_cast
            ring
          rw [hW, hP]
          rfl

/-- Win counts агree between a walk's results and its input entries, on
every prefix. -/
lemma walkGames_take_countW :
    ∀ (l : List GameAcc) (w p : ℚ) (n : ℕ),
      (((walkGames w p l).take n).filter fun e => e.result = "W").length =
        ((l.take n).filter fun g => classify g = "W").length := by
  intro l
  induction l with
  | nil => intro w p n; simp [walkGames]
  | cons g rest ih =>
      intro w p n
      match n with
      | 0 => simp
      | n + 1 =>
          rw [walkGames, List.take_succ_cons, List.take_succ_cons,
            List.filter_cons, List.filter_cons]
          by_cases h : classify g = "W" <;>
            simp [h, ih]

/-- The sorted games are a permutation of the merged games map. -/
lemma sortedGames_perm (bat : List BatRow) (pitch : List PitchRow) :
    (sortedGames bat pitch).Perm (addRunsAllowed (gamesFromBatting bat) pitch) :=
  List.perm_insertionSort _ _

/-- The sorted games are chronologically ordered by parsed date. -/
lemma sortedGames_sorted (bat : List BatRow) (pitch : List PitchRow) :
    List.Sorted (fun a b : GameAcc => parseDate a.date ≤ parseDate b.date)
      (sortedGames bat pitch) := by
  haveI : IsTotal GameAcc (fun a b => parseDate a.date ≤ parseDate b.date) :=
    ⟨fun a b => le_total _ _⟩
  haveI : IsTrans GameAcc (fun a b => parseDate a.date ≤ parseDate b.date) :=
    ⟨fun a b c => le_trans⟩
  exact List.sorted_insertionSort _ _

/-- Field values of the sorted games: non-empty id, runs scored summed from
the batting rows with that id, runs allowed summed from the pitching rows
with that id. -/
lemma sortedGames_mem_spec (bat : List BatRow) (pitch : List PitchRow) :
    ∀ e ∈ sortedGames bat pitch,
      e.id ≠ "" ∧ e.runsScored = runsFor bat e.id ∧
      e.runsAllowed = allowedFor pitch e.id := by
  intro e he
  have he2 := (sortedGames_perm bat pitch).mem_iff.mp he
  rw [addRunsAllowed_eq] at he2
  obtain ⟨e0, he0, rfl⟩ := List.mem_map.mp he2
  obtain ⟨h1, h2, h3⟩ := gamesFromBatting_spec bat e0 he0
  exact ⟨h1, h3, by rw [h2, zero_add]⟩

/-- Which game ids appear among the sorted games. -/
lemma sortedGames_ids_iff (bat : List BatRow) (pitch : List PitchRow)
    (g : String) :
    (∃ e ∈ sortedGames bat pitch, e.id = g) ↔
      (g ≠ "" ∧ ∃ r ∈ bat, r.gameId = g) := by
  rw [← gamesFromBatting_ids bat g]
  constructor
  · rintro ⟨e, he, rfl⟩
    have he2 := (sortedGames_perm bat pitch).mem_iff.mp he
    rw [addRunsAllowed_eq] at he2
    obtain ⟨e0, he0, rfl⟩ := List.mem_map.mp he2
    exact ⟨e0, he0, rfl⟩
  · rintro ⟨e0, he0, rfl⟩
    refine ⟨{ e0 with runsAllowed := e0.runsAllowed + allowedFor pitch e0.id },
      ?_, rfl⟩
    rw [(sortedGames_perm bat pitch).mem_iff, addRunsAllowed_eq]
    exact List.mem_map.mpr ⟨e0, he0, rfl⟩

/-- The sorted games carry duplicate-free ids. -/
lemma sortedGames_nodup (bat : List BatRow) (pitch : List PitchRow) :
    ((sortedGames bat pitch).map fun e => e.id).Nodup := by
  have hperm := (sortedGames_perm bat pitch).map fun e => e.id
  rw [List.Perm.nodup_iff hperm, addRunsAllowed_eq, List.map_map]
  have : ((gamesFromBatting bat).map
      ((fun e => e.id) ∘ fun e =>
        { e with runsAllowed := e.runsAllowed + allowedFor pitch e.id })) =
      (gamesFromBatting bat).map fun e => e.id :=
    List.map_congr_left fun e _ => rfl
  rw [this]
  exact gamesFromBatting_nodup bat

/-- First sample batting row of the C6 scenario (`game1`, 5 runs). -/
def gB1 : BatRow :=
  { blankBatRow with date := "2025-10-01", gameId := "game1", runs := 5 }

/-- Second sample batting row of the C6 scenario (`game2`, 3 runs). -/
def gB2 : BatRow :=
  { blankBatRow with date := "2025-10-02", gameId := "game2", runs := 3 }

/-- First sample pitching row of the C6 scenario (`game1`, 2 runs allowed). -/
def gP1 : PitchRow :=
  { blankPitchRow with date := "2025-10-01", gameId := "game1", r := 2 }

/-- Second sample pitching row of the C6 scenario (`game2`, 4 runs allowed). -/
def gP2 : PitchRow :=
  { blankPitchRow with date := "2025-10-02", gameId := "game2", r := 4 }

/-- C6: game outcome derivation builds one entry per distinct non-empty
game id of the batting rows (duplicate-free ids; an id appears iff some
batting row carries it), sums runs scored from the batting rows and runs
allowed from the pitching rows sharing the id (pitching rows whose id has
no batting entry are ignored by construction), sorts chronologically by
parsed date, classifies each entry by comparing runs scored to runs
allowed, and attaches the running win percentage
`wins / games-played-so-far` recomputed after each game; on the concrete
scenario (batting runs `game1 = 5`, `game2 = 3`; runs allowed `game1 = 2`,
`game2 = 4`) game1 is a Win with running percentage `1.000` and game2 a
Loss with running percentage `0.500`. -/
theorem C6_game_outcome_derivation (bat : List BatRow) (pitch : List PitchRow) :
    ((gameByGameStats bat pitch).map fun e => e.id).Nodup ∧
    (∀ g : String, (∃ e ∈ gameByGameStats bat pitch, e.id = g) ↔
      (g ≠ "" ∧ ∃ r ∈ bat, r.gameId = g)) ∧
    (∀ e ∈ gameByGameStats bat pitch,
      e.runsScored = runsFor bat e.id ∧ e.runsAllowed = allowedFor pitch e.id ∧
      e.result = (if e.runsAllowed < e.runsScored then "W"
        else if e.runsScored < e.runsAllowed then "L" else "T")) ∧
    List.Sorted (fun a b : GameResult => parseDate a.date ≤ parseDate b.date)
      (gameByGameStats bat pitch) ∧
    (∀ (k : ℕ) (e : GameResult), (gameByGameStats bat pitch).get? k = some e →
      e.winningPercentage = jsToFixed 3 (safeDiv
        (((((gameByGameStats bat pitch).take (k + 1)).filter
          fun x => x.result = "W").length : ℕ) : ℚ) ((k + 1 : ℕ) : ℚ))) ∧
    (gameByGameStats [gB1, gB2] [gP1, gP2]).map
      (fun e => (e.id, e.result, e.winningPercentage)) =
      [("game1", "W", 1), ("game2", "L", 1/2)] := by
  have hconc : (gameByGameStats [gB1, gB2] [gP1, gP2]).map
      (fun e => (e.id, e.result, e.winningPercentage)) =
      [("game1", "W", 1), ("game2", "L", 1/2)] := by
    rw [show ([gB1, gB2] : List BatRow) = gB1 :: [gB2] from rfl,
      gameByGameStats_cons]
    norm_num [gamesFromBatting, addRunsAllowed, batGameStep,
      pitchGameStep, sortedGames, walkGames, classify, initGame, opponentOf,
      jsIncludes, containsSeq, leadsWith, List.insertionSort,
      List.orderedInsert, jsToFixed, safeDiv, gB1, gB2, gP1, gP2, blankBatRow,
      blankPitchRow,
      (by decide : ¬ (("game1" : String) = "game2")),
      (by decide : ¬ (("game2" : String) = "game1")),
      (by decide : ¬ (("L" : String) = "W")),
      (by decide : parseDate "2025-10-01" ≤ parseDate "2025-10-02")]
  by_cases hbat : bat = []
  · subst hbat
    refine ⟨by simp [gameByGameStats], ?_, by simp [gameByGameStats], ?_, ?_,
      hconc⟩
    · intro g
      simp [gameByGameStats]
    · simp [gameByGameStats]
    · intro k e he
      simp [gameByGameStats] at he
  · have hne : gameByGameStats bat pitch = walkGames 0 0 (sortedGames bat pitch) := by
      simp [gameByGameStats, hbat]
    refine ⟨?_, ?_, ?_, ?_, ?_, hconc⟩
    · rw [hne, walkGames_ids]
      exact sortedGames_nodup bat pitch
    · intro g
      rw [← sortedGames_ids_iff bat pitch g, hne]
      constructor
      · rintro ⟨e, he, rfl⟩
        obtain ⟨g0, hg0, hid, -⟩ := walkGames_mem _ 0 0 e he
        exact ⟨g0, hg0, hid.symm⟩
      · rintro ⟨g0, hg0, rfl⟩
        have h1 : g0.id ∈ (sortedGames bat pitch).map fun e => e.id :=
          List.mem_map.mpr ⟨g0, hg0, rfl⟩
        rw [← walkGames_ids _ 0 0] at h1
        obtain ⟨e, he, hid⟩ := List.mem_map.mp h1
        exact ⟨e, he, hid⟩
    · intro e he
      rw [hne] at he
      obtain ⟨g0, hg0, hid, hrs, hra, hres⟩ := walkGames_mem _ 0 0 e he
      obtain ⟨-, h2, h3⟩ := sortedGames_mem_spec bat pitch g0 hg0
      refine ⟨by rw [hrs, hid, h2], by rw [hra, hid, h3], ?_⟩
      rw [hres, classify, hrs, hra]
    · rw [hne]
      have h1 := sortedGames_sorted bat pitch
      rw [List.Sorted, ← List.pairwise_map (f := fun g : GameAcc => g.date)
        (R := fun d1 d2 => parseDate d1 ≤ parseDate d2)] at h1
      rw [← walkGames_dates _ 0 0] at h1
      rw [List.pairwise_map] at h1
      exact h1
    · intro k e he
      rw [hne] at he
      obtain ⟨hk2, rfl⟩ := List.get?_eq_some.mp he
      have hk : k < (sortedGames bat pitch).length := by
        rw [← walkGames_length _ 0 0]; exact hk2
      rw [walkGames_get _ 0 0 k hk hk2]
      have hcount :
          countW ((sortedGames bat pitch).take (k + 1)) =
            (((((walkGames 0 0 (sortedGames bat pitch)).take (k + 1)).filter
              fun x => x.result = "W").length : ℕ) : ℚ) := by
        rw [countW, walkGames_take_countW]
      rw [hne, ← hcount]
      simp

/-- Witness for C6: the theorem applied at the concrete two-game scenario. -/
theorem C6_game_outcome_derivation_witness :
    (gameByGameStats [gB1, gB2] [gP1, gP2]).map
      (fun e => (e.id, e.result, e.winningPercentage)) =
      [("game1", "W", 1), ("game2", "L", 1/2)] :=
  (C6_game_outcome_derivation [gB1, gB2] [gP1, gP2]).2.2.2.2.2

/-- C9: a game id that appears in the batting rows but matches no pitching
row keeps the initial `runsAllowed = 0`; its entry is never dropped from
the outcome series, and it is classified Win when its accumulated runs
scored is positive and Tie when it is zero. -/
theorem C9_missing_pitching_defaults_zero (bat : List BatRow)
    (pitch : List PitchRow) (g : String) (hg : g ≠ "")
    (hbat : ∃ r ∈ bat, r.gameId = g)
    (hpitch : ∀ p ∈ pitch, p.gameId ≠ g) :
    g ∈ (gameByGameStats bat pitch).map (fun e => e.id) ∧
    ∀ e ∈ gameByGameStats bat pitch, e.id = g →
      e.runsAllowed = 0 ∧ (0 < e.runsScored → e.result = "W") ∧
      (e.runsScored = 0 → e.result = "T") := by
  have hbne : ¬ (bat = []) := by
    rintro rfl
    obtain ⟨r, hr, -⟩ := hbat
    exact (List.not_mem_nil r) hr
  have hne : gameByGameStats bat pitch = walkGames 0 0 (sortedGames bat pitch) := by
    simp [gameByGameStats, hbne]
  have hallowed : allowedFor pitch g = 0 := by
    rw [allowedFor]
    have hnil : pitch.filter (fun r => r.gameId = g) = [] :=
      List.filter_eq_nil_iff.mpr fun p hp => by simpa using hpitch p hp
    rw [hnil]
    simp
  constructor
  · obtain ⟨e0, he0, hid⟩ :=
      (sortedGames_ids_iff bat pitch g).mpr ⟨hg, hbat⟩
    rw [hne, walkGames_ids]
    exact List.mem_map.mpr ⟨e0, he0, hid⟩
  · intro e he hid
    rw [hne] at he
    obtain ⟨g0, hg0, hid0, hrs, hra, hres⟩ := walkGames_mem _ 0 0 e he
    obtain ⟨-, -, h3⟩ := sortedGames_mem_spec bat pitch g0 hg0
    have hra0 : e.runsAllowed = 0 := by
      rw [hra, h3, ← hid0, hid, hallowed]
    refine ⟨hra0, fun hpos => ?_, fun hzero => ?_⟩
    · rw [hres, classify, ← hrs, ← hra, hra0]
      rw [if_pos hpos]
    · rw [hres, classify, ← hrs, ← hra, hra0, hzero]
      norm_num

/-- The single game result derived from `gB1` alone (no pitching rows). -/
def E9 : GameResult :=
  { id := "game1", date := "2025-10-01", opponent := "不明", scoreText := ""
    runsScored := 5, runsAllowed := 0, result := "W", winningPercentage := 1
    label := "10/01 vs 不明" }

/-- Evaluation of the outcome series on `gB1` alone. -/
lemma C9sample_eval : gameByGameStats [gB1] [] = [E9] := by
  rw [show ([gB1] : List BatRow) = gB1 :: [] from rfl, gameByGameStats_cons]
  norm_num [gamesFromBatting, addRunsAllowed, batGameStep, pitchGameStep,
    sortedGames, walkGames, classify, initGame, opponentOf, jsIncludes,
    containsSeq, leadsWith, List.insertionSort, jsToFixed, safeDiv, gB1,
    blankBatRow, E9,
    (by decide : gameLabel ⟨"game1", "2025-10-01", "不明", "", 5, 0⟩ =
      "10/01 vs 不明")]

/-- Witness for C9 at the one-game scenario without pitching rows. -/
theorem C9_missing_pitching_defaults_zero_witness :
    "game1" ∈ (gameByGameStats [gB1] ([] : List PitchRow)).map (fun e => e.id) ∧
    E9.runsAllowed = 0 ∧ E9.result = "W" := by
  have h := C9_missing_pitching_defaults_zero [gB1] [] "game1" (by decide)
    ⟨gB1, List.mem_singleton.mpr rfl, rfl⟩ (fun p hp => by simp at hp)
  refine ⟨h.1, ?_, ?_⟩
  · exact (h.2 E9 (by rw [C9sample_eval]; exact List.mem_singleton.mpr rfl)
      rfl).1
  · exact (h.2 E9 (by rw [C9sample_eval]; exact List.mem_singleton.mpr rfl)
      rfl).2.1 (by norm_num [E9])

end Ants
